import Mathlib

/-! tdb: Terraria crafting database extractor

A shallow embedding of `src/tdb.go` and a verification development over it.

Conventions of the embedding.

* Go `int` is `Int`, Go `string` is `String`, a Go slice is a `List`.
* A Go `map[K]V` is a `GoMap K V`: a duplicate-free association list read
  through `GoMap.get?`; `GoMap.index` is the Go expression `m[k]`, which
  yields the zero value of `V` for an absent key.
* A `bufio.Scanner` over a page is the list of the lines it yields; `Text()`
  is the empty string before the first `Scan()` and after the input is
  exhausted.
* `http.Get` is a parameter `fetch` from the requested address to the body of
  the answer, `none` when the request fails.
* A Go run-time panic (index out of range, nil dereference) ends the run; the
  functions that can panic return `Except GoPanic`.
* Go `int` has 64 bits: `strconv.Atoi` answers a numeral out of range with the
  nearest bound, and the program discards the error.
* A regular expression of the program is a `Pattern`: a literal, one or more
  characters of a class, a literal.
-/

set_option maxRecDepth 100000

namespace Tdb

/-! ## Data model (`src/tdb.go`, lines 19-48) -/

/-- The Go struct `Item`. -/
structure Item where
  Id : Int
  Name : String
  Image : String
deriving DecidableEq

/-- The Go struct `Ingredient`. -/
structure Ingredient where
  Item : Int
  Count : Int
deriving DecidableEq

/-- The Go struct `Workstation`. -/
structure Workstation where
  Item : Int
  Other : String
deriving DecidableEq

/-- The Go struct `Recipe`. -/
structure Recipe where
  Id : Int
  Workstations : List Workstation
  Ingredients : List Ingredient
  Product : Ingredient
deriving DecidableEq

/-- Run-time panics of the Go program. -/
inductive GoPanic where
  | indexOutOfRange
  | nilDereference
deriving DecidableEq

deriving instance DecidableEq for Except

/-- Zero value of a Go type. -/
class Zeroed (α : Type) where
  zero : α

instance : Zeroed Int := ⟨0⟩
instance : Zeroed String := ⟨""⟩
instance : Zeroed Tdb.Item := ⟨⟨0, "", ""⟩⟩
instance : Zeroed Recipe := ⟨⟨0, [], [], ⟨0, 0⟩⟩⟩
instance {α : Type} : Zeroed (List α) := ⟨[]⟩

/-! ## Go maps -/

/-- A Go map as an association list; `set` keeps at most one entry per key. -/
structure GoMap (κ α : Type) where
  entries : List (κ × α)

namespace GoMap

variable {κ α : Type} [DecidableEq κ]

/-- The Go expression `make(map[K]V)`. -/
def empty : GoMap κ α := ⟨[]⟩

/-- Two-valued lookup `v, ok := m[k]`. -/
def get? (m : GoMap κ α) (k : κ) : Option α :=
  (m.entries.find? (fun p => decide (p.1 = k))).map Prod.snd

/-- One-valued lookup `m[k]`: the zero value when the key is absent. -/
def index [Zeroed α] (m : GoMap κ α) (k : κ) : α :=
  (m.get? k).getD Zeroed.zero

/-- The Go statement `m[k] = v`. -/
def set (m : GoMap κ α) (k : κ) (v : α) : GoMap κ α :=
  ⟨(k, v) :: m.entries.filter (fun p => decide (p.1 ≠ k))⟩

/-- The Go statement `delete(m, k)`. -/
def delete (m : GoMap κ α) (k : κ) : GoMap κ α :=
  ⟨m.entries.filter (fun p => decide (p.1 ≠ k))⟩

/-- Whether `k` is a key of the map. -/
def HasKey (m : GoMap κ α) (k : κ) : Prop := (m.get? k).isSome = true

instance (m : GoMap κ α) (k : κ) : Decidable (m.HasKey k) := by
  unfold HasKey; infer_instance

end GoMap

/-! ## `strconv.Itoa` -/

/-- Decimal rendering of an integer, as `strconv.Itoa` produces it. -/
def Itoa : Int → String
  | Int.ofNat n => String.mk (Nat.toDigits 10 n)
  | Int.negSucc n => String.mk ('-' :: Nat.toDigits 10 (n + 1))

/-- Value of a run of decimal digit characters, read left to right from `acc`. -/
def digitsValue (acc : Nat) (cs : List Char) : Nat :=
  cs.foldl (fun a c => 10 * a + (c.toNat - 48)) acc

/-- Left inverse of `Itoa`. -/
def unItoa (s : String) : Int :=
  if s.data.head? = some '-' then - (digitsValue 0 s.data.tail : Int)
  else (digitsValue 0 s.data : Int)

/-- The function `strconv.Atoi` on a 64-bit platform: a decimal numeral with an
optional sign; `0` on a syntax error, the nearest bound on a range error (the
error value itself is discarded at every call site of the program). -/
def Atoi (s : String) : Int :=
  let digitsOk : List Char → Bool := fun ds => !ds.isEmpty && ds.all Char.isDigit
  match s.data with
  | '-' :: ds =>
    if digitsOk ds then max (-(digitsValue 0 ds : Int)) (-(2 ^ 63 : Int)) else 0
  | '+' :: ds =>
    if digitsOk ds then min (digitsValue 0 ds : Int) (2 ^ 63 - 1) else 0
  | ds =>
    if digitsOk ds then min (digitsValue 0 ds : Int) (2 ^ 63 - 1) else 0

/-! ## Strings, the line scanner and the regular expressions -/

/-- The function `strings.Contains`. -/
def containsChars (sub : List Char) : List Char → Bool
  | [] => sub.isEmpty
  | c :: cs => sub.isPrefixOf (c :: cs) || containsChars sub cs

/-- The function `strings.Contains` on strings. -/
def Contains (s sub : String) : Bool := containsChars sub.data s.data

/-- The predicate `unicode.IsSpace`. -/
def isSpace (c : Char) : Bool :=
  let n := c.toNat
  (9 ≤ n && n ≤ 13) || n = 32 || n = 0x85 || n = 0xA0 || n = 0x1680 ||
  (0x2000 ≤ n && n ≤ 0x200A) || n = 0x2028 || n = 0x2029 || n = 0x202F ||
  n = 0x205F || n = 0x3000

/-- The function `strings.TrimSpace` on characters. -/
def trimChars (cs : List Char) : List Char :=
  ((cs.dropWhile isSpace).reverse.dropWhile isSpace).reverse

/-- The function `strings.TrimSpace`. -/
def TrimSpace (s : String) : String := String.mk (trimChars s.data)

/-- Replacement of every non-overlapping occurrence of a non-empty `old`, left to
right; the counter is the number of characters of a matched occurrence still to
be skipped. -/
def replaceAux (old new : List Char) : Nat → List Char → List Char
  | _, [] => []
  | skip + 1, _ :: cs => replaceAux old new skip cs
  | 0, c :: cs =>
    if old.isPrefixOf (c :: cs) then new ++ replaceAux old new (old.length - 1) cs
    else c :: replaceAux old new 0 cs

/-- The call `bytes.Replace(raw, old, new, -1)` for a non-empty `old`. -/
def Replace (raw old new : String) : String :=
  String.mk (replaceAux old.data new.data 0 raw.data)

/-- Removal of one trailing carriage return, as `bufio.ScanLines` does. -/
def dropCR (cs : List Char) : List Char :=
  if cs.getLast? = some '\r' then cs.dropLast else cs

/-- Tokens of `bufio.ScanLines`: `cur` holds the current line reversed. -/
def scanLinesAux : List Char → List Char → List String
  | cur, [] => if cur.isEmpty then [] else [String.mk (dropCR cur.reverse)]
  | cur, c :: cs =>
    if c = '\n' then String.mk (dropCR cur.reverse) :: scanLinesAux [] cs
    else scanLinesAux (c :: cur) cs

/-- The lines a `bufio.Scanner` yields for a page body. -/
def scanLines (body : String) : List String := scanLinesAux [] body.data

/-- A regular expression of the shape `pre(cls+)suf`: a literal, a capture of one
or more characters of a class, a literal. For every expression of the program
the literal `suf` is empty or starts with a character outside the class, so the
greedy capture is the maximal run of class characters. -/
structure Pattern where
  pre : List Char
  cls : Char → Bool
  suf : List Char

namespace Pattern

/-- Match anchored at the start of `s`: the capture and the text after the match. -/
def matchAt (p : Pattern) (s : List Char) : Option (List Char × List Char) :=
  if p.pre.isPrefixOf s then
    let body := s.drop p.pre.length
    let run := body.takeWhile p.cls
    let rest := body.dropWhile p.cls
    if !run.isEmpty && p.suf.isPrefixOf rest then some (run, rest.drop p.suf.length)
    else none
  else none

/-- Leftmost match in `s`: the capture and the text after the match. -/
def find (p : Pattern) : List Char → Option (List Char × List Char)
  | [] => p.matchAt []
  | c :: cs =>
    match p.matchAt (c :: cs) with
    | some r => some r
    | none => find p cs

/-- Successive non-overlapping leftmost matches, at most `fuel` of them. -/
def findAllAux (p : Pattern) : Nat → List Char → List (List Char)
  | 0, _ => []
  | fuel + 1, s =>
    match p.find s with
    | none => []
    | some (cap, rest) => cap :: findAllAux p fuel rest

/-- Captures of `FindAllStringSubmatch(line, -1)`: a match is never empty, so
a line has at most as many matches as characters. -/
def FindAllStringSubmatch (p : Pattern) (line : String) : List String :=
  (findAllAux p line.data.length line.data).map String.mk

/-- Capture of `FindStringSubmatch(line)`, `none` for the nil result. -/
def FindStringSubmatch (p : Pattern) (line : String) : Option String :=
  (p.find line.data).map (fun r => String.mk r.1)

end Pattern

/-- The expression `FindStringSubmatch(line)[1]`: indexing the nil result panics. -/
def submatch1 (p : Pattern) (line : String) : Except GoPanic String :=
  match p.FindStringSubmatch line with
  | some cap => .ok cap
  | none => .error GoPanic.indexOutOfRange

/-- Character class `[A-Za-z '-]`. -/
def isLabelChar (c : Char) : Bool :=
  c.isAlpha || c = ' ' || c = '\'' || c = '-'

/-- Character class `[^"]`. -/
def isNotQuote (c : Char) : Bool := c != '"'

/-- The expression `([A-Za-z '-]+)</span>` (line 166). -/
def labelRe : Pattern := ⟨[], isLabelChar, "</span>".data⟩

/-- The expression `<a href="([^"]+)"` (line 183). -/
def linkRe : Pattern := ⟨"<a href=\"".data, isNotQuote, "\"".data⟩

/-- The expression `title="([^"]+)"` (lines 231 and 246). -/
def titleRe : Pattern := ⟨"title=\"".data, isNotQuote, "\"".data⟩

/-- The expression `\(([0-9]+)\)` (lines 236 and 247). -/
def countRe : Pattern := ⟨"(".data, Char.isDigit, ")".data⟩

/-- The expression `rowspan="([0-9]+)"` (line 239). -/
def rowspanRe : Pattern := ⟨"rowspan=\"".data, Char.isDigit, "\"".data⟩

/-! ## `listWorkstationRecipes` (`src/tdb.go`, lines 196-255) -/

/-- A `bufio.Scanner`: the current token `Text()` and the lines not yet read. -/
structure Scanner where
  text : String
  rest : List String

/-- The method `body.Scan()`: its result and the scanner afterwards. -/
def Scanner.Scan (b : Scanner) : Bool × Scanner :=
  match b.rest with
  | [] => (false, ⟨"", []⟩)
  | l :: ls => (true, ⟨l, ls⟩)

/-- The closure `scan` of lines 209-214. -/
def scan (b : Scanner) : Scanner :=
  let b1 := b.Scan.2
  if !Contains b1.text "title" then b1.Scan.2 else b1

/-- The count of a product or ingredient line: `1`, overwritten by the
parenthesized number when the line has one (lines 236-238 and 247-249). -/
def parseCount (line : String) : Int :=
  match countRe.FindStringSubmatch line with
  | some m => Atoi m
  | none => 1

/-- The ingredient loop of lines 242-251, `n` iterations left. -/
def ingredientsLoop (items : GoMap String Int) :
    Nat → Scanner → List Ingredient → Except GoPanic (Scanner × List Ingredient)
  | 0, b, acc => .ok (b, acc)
  | n + 1, b, acc =>
    let b2 := scan (scan b)
    match submatch1 titleRe b2.text with
    | .error e => .error e
    | .ok t =>
      ingredientsLoop items n b2
        (acc ++ [⟨items.index (TrimSpace t), parseCount b2.text⟩])

/-- The record loop of lines 216-253; `none` when `fuel` iterations did not
reach the end of the page. -/
def recipesLoop (items : GoMap String Int) (workstations : List Workstation) :
    Nat → Scanner → List Recipe → Option (Except GoPanic (List Recipe))
  | 0, _, _ => none
  | fuel + 1, b, recipes =>
    if !Contains b.text "style=\"text-align:center;width:1%\">" then
      match b.Scan with
      | (true, b1) => recipesLoop items workstations fuel b1 recipes
      | (false, _) => some (.ok recipes)
    else
      let b1 := scan b
      match submatch1 titleRe b1.text with
      | .error e => some (.error e)
      | .ok t =>
        let product : Ingredient := ⟨items.index (TrimSpace t), parseCount b1.text⟩
        match submatch1 rowspanRe b1.text with
        | .error e => some (.error e)
        | .ok rs =>
          let components := Atoi (TrimSpace rs)
          match ingredientsLoop items components.toNat b1 [] with
          | .error e => some (.error e)
          | .ok (b2, ingredients) =>
            recipesLoop items workstations fuel b2
              (recipes ++ [⟨0, workstations, ingredients, product⟩])

/-- The function `listWorkstationRecipes`. Every iteration of the record loop
that goes on reads at least one line, so one more iteration than the page has
lines reaches its end (`recipesLoop_isSome`). -/
def listWorkstationRecipes (fetch : String → Option String) (items : GoMap String Int)
    (workstations : List Workstation) (url : String) : Except GoPanic (List Recipe) :=
  match fetch ("http://terraria.gamepedia.com" ++ url) with
  | none => .error GoPanic.nilDereference
  | some raw =>
    let lines := scanLines (Replace raw "</tr><tr>" "</tr>\n<tr>")
    match recipesLoop items workstations (lines.length + 1) ⟨"", lines⟩ [] with
    | some r => r
    | none => .ok []

/-! ## `listRecipes` (`src/tdb.go`, lines 142-192) -/

/-- The loop variables of `listRecipes`. -/
structure DirState where
  workstations : List (List Workstation)
  listing : Bool
  recipes : List Recipe
deriving DecidableEq

/-- Body of the label loop, lines 166-174: the state is `ws` and `workstations`. -/
def queueLabel (items : GoMap String Int)
    (st : List Workstation × List (List Workstation)) (label : String) :
    List Workstation × List (List Workstation) :=
  let name := TrimSpace label
  let ws := match items.get? name with
    | some item => st.1 ++ [(⟨item, ""⟩ : Workstation)]
    | none => st.1 ++ [(⟨0, name⟩ : Workstation)]
  (ws, st.2 ++ [ws])

/-- The queue after a table-of-contents line, lines 165-174. -/
def parseListingLine (items : GoMap String Int) (workstations : List (List Workstation))
    (line : String) : List (List Workstation) :=
  ((labelRe.FindAllStringSubmatch line).foldl (queueLabel items) ([], workstations)).2

/-- Body of the line loop, lines 153-185. -/
def listRecipesStep (fetch : String → Option String) (items : GoMap String Int)
    (st : DirState) (line : String) : Except GoPanic DirState :=
  if st.listing then
    if !Contains line "<li class=\"toclevel-1 tocsection-" then
      if st.workstations.length > 0 then .ok { st with listing := false } else .ok st
    else
      .ok { st with workstations := parseListingLine items st.workstations line }
  else if !Contains line "<a href=\"/Recipes/" then .ok st
  else
    match submatch1 linkRe line with
    | .error e => .error e
    | .ok u =>
      match st.workstations with
      | [] => .error GoPanic.indexOutOfRange
      | g :: gs =>
        match listWorkstationRecipes fetch items g (TrimSpace u) with
        | .error e => .error e
        | .ok rs => .ok { st with recipes := st.recipes ++ rs, workstations := gs }

/-- The line loop of lines 152-186. -/
def listRecipesLoop (fetch : String → Option String) (items : GoMap String Int) :
    List String → DirState → Except GoPanic DirState
  | [], st => .ok st
  | line :: ls, st =>
    match listRecipesStep fetch items st line with
    | .error e => .error e
    | .ok st1 => listRecipesLoop fetch items ls st1

/-- The id loop of lines 188-190, from position `i` on. -/
def assignIds : Nat → List Recipe → List Recipe
  | _, [] => []
  | i, r :: rs => { r with Id := (i : Int) + 1 } :: assignIds (i + 1) rs

/-- The function `listRecipes`. -/
def listRecipes (fetch : String → Option String) (items : GoMap String Int) :
    Except GoPanic (List Recipe) :=
  match fetch "http://terraria.gamepedia.com/Recipes" with
  | none => .error GoPanic.nilDereference
  | some body =>
    match listRecipesLoop fetch items (scanLines body) ⟨[], true, []⟩ with
    | .error e => .error e
    | .ok st => .ok (assignIds 0 st.recipes)

/-- The loop of `listRecipes` run while `listing` holds: the loop variables when
the listing phase ends, and the lines left for the detail phase. -/
def listingPhase (fetch : String → Option String) (items : GoMap String Int) :
    List String → DirState → Except GoPanic (DirState × List String)
  | [], st => .ok (st, [])
  | line :: ls, st =>
    if st.listing then
      match listRecipesStep fetch items st line with
      | .error e => .error e
      | .ok st1 => listingPhase fetch items ls st1
    else .ok (st, line :: ls)

/-- The sub-page links among the lines, in line order: for each line with the link
marker (line 179), the address of line 183. -/
def detailLinks : List String → List (Except GoPanic String)
  | [] => []
  | line :: ls =>
    if !Contains line "<a href=\"/Recipes/" then detailLinks ls
    else
      (match submatch1 linkRe line with
        | .error e => .error e
        | .ok u => .ok (TrimSpace u)) :: detailLinks ls

/-- The workstation appended to `ws` for a label, lines 167-172. -/
def labelWorkstation (items : GoMap String Int) (label : String) : Workstation :=
  match items.get? (TrimSpace label) with
  | some item => ⟨item, ""⟩
  | none => ⟨0, TrimSpace label⟩

/-- The non-empty prefixes of a list, shortest first. -/
def prefixes {α : Type} : List α → List (List α)
  | [] => []
  | x :: l => [x] :: (prefixes l).map (fun pre => x :: pre)

/-! ## The indexer of `main` (`src/tdb.go`, lines 85-96) -/

/-- The three maps `main` builds at line 85. -/
structure Index where
  itemIndex : GoMap String Tdb.Item
  recipeIndex : GoMap String Recipe
  relations : GoMap String (List Int)

/-- Body of the inner loop, lines 91-94. -/
def indexIngredient (items : GoMap Int Tdb.Item) (recipe : Recipe) (st : Index)
    (ingredient : Ingredient) : Index :=
  { itemIndex := st.itemIndex.set (Itoa ingredient.Item) (items.index ingredient.Item)
    recipeIndex := st.recipeIndex
    relations := st.relations.set (Itoa ingredient.Item)
      (st.relations.index (Itoa ingredient.Item) ++ [recipe.Id]) }

/-- Body of the outer loop, lines 86-95. -/
def indexRecipe (items : GoMap Int Tdb.Item) (st : Index) (recipe : Recipe) : Index :=
  let st1 : Index :=
    { itemIndex := st.itemIndex.set (Itoa recipe.Product.Item) (items.index recipe.Product.Item)
      recipeIndex := st.recipeIndex.set (Itoa recipe.Id) recipe
      relations := st.relations.set (Itoa recipe.Product.Item)
        (st.relations.index (Itoa recipe.Product.Item) ++ [recipe.Id]) }
  recipe.Ingredients.foldl (indexIngredient items recipe) st1

/-- The indexer of `main`: the loop of lines 86-95 from empty maps, then the
`delete(itemIndex, "0")` of line 96. -/
def mainIndex (items : GoMap Int Tdb.Item) (recipes : List Recipe) : Index :=
  let st := recipes.foldl (indexRecipe items) ⟨GoMap.empty, GoMap.empty, GoMap.empty⟩
  { st with itemIndex := st.itemIndex.delete "0" }

/-- The item ids a recipe references: its product, then its ingredients. -/
def Recipe.refs (r : Recipe) : List Int :=
  r.Product.Item :: r.Ingredients.map (fun g => g.Item)

/-- The recipe ids the indexer appends to `relations[k]`: one per reference of
item key `k`, in recipe order. -/
def relationIds (k : String) (recipes : List Recipe) : List Int :=
  recipes.flatMap (fun r => (r.refs.filter (fun i => decide (Itoa i = k))).map (fun _ => r.Id))

/-- The item keys written by the indexer, in the order of the writes. -/
def refKeys (recipes : List Recipe) : List String :=
  recipes.flatMap (fun r => r.refs.map Itoa)

/-! ## Example pages (Scenario A of the specification) -/

/-- Item catalog with Wood, Torch and Gel. -/
def exampleCatalog : GoMap Int Tdb.Item :=
  ⟨[(1, ⟨1, "Wood", "img/Wood.png"⟩), (2, ⟨2, "Torch", "img/Torch.png"⟩),
    (3, ⟨3, "Gel", "img/Gel.png"⟩)]⟩

/-- Name-to-id table of `exampleCatalog`. -/
def exampleIds : GoMap String Int := ⟨[("Wood", 1), ("Torch", 2), ("Gel", 3)]⟩

/-- A directory page: one table-of-contents entry and one sub-page link. -/
def exampleDirectory : String :=
  "<ul>\n<li class=\"toclevel-1 tocsection-1\"><span class=\"toctext\">By Hand</span></li>\n</ul>\n<a href=\"/Recipes/By_Hand\">By Hand</a>\n"

/-- A sub-page with the single record Torch = Wood + Gel. -/
def exampleSubPage : String :=
  "<table>\n<tr><td style=\"text-align:center;width:1%\">\n<a title=\"Torch\" rowspan=\"2\"><img></a>\n<a title=\"Torch\">Torch</a>\n<a title=\"Wood\"><img></a>\n<a title=\"Wood\">Wood</a></td></tr><tr><td>\n<a title=\"Gel\"><img></a>\n<a title=\"Gel\">Gel</a>\n</td></tr>\n"

/-- The wiki serving the two example pages. -/
def exampleFetch (address : String) : Option String :=
  if address = "http://terraria.gamepedia.com/Recipes" then some exampleDirectory
  else if address = "http://terraria.gamepedia.com/Recipes/By_Hand" then some exampleSubPage
  else none

/-- The recipe of Scenario A, with the id and workstation group it gets. -/
def exampleRecipe : Recipe := ⟨1, [⟨0, "By Hand"⟩], [⟨1, 1⟩, ⟨3, 1⟩], ⟨2, 1⟩⟩

/-- A recipe whose product name was not in the name table: item id `0`. -/
def sentinelRecipe : Recipe := ⟨1, [⟨0, "By Hand"⟩], [⟨1, 1⟩], ⟨0, 1⟩⟩

/-- The wiki serving `directory` as the recipes overview and `exampleSubPage` as
the sub-page of the By Hand workstation. -/
def wikiWith (directory : String) (address : String) : Option String :=
  if address = "http://terraria.gamepedia.com/Recipes" then some directory
  else if address = "http://terraria.gamepedia.com/Recipes/By_Hand" then some exampleSubPage
  else none

/-- A directory page with one table-of-contents entry and two sub-page links. -/
def surplusLinkDirectory : String :=
  "<li class=\"toclevel-1 tocsection-1\"><span class=\"toctext\">By Hand</span></li>\n</ul>\n<a href=\"/Recipes/By_Hand\">By Hand</a>\n<a href=\"/Recipes/By_Hand\">Again</a>\n"

/-- A directory page with two table-of-contents entries and one sub-page link
(Scenario C of the specification). -/
def surplusGroupDirectory : String :=
  "<li class=\"toclevel-1 tocsection-1\"><span class=\"toctext\">By Hand</span></li>\n<li class=\"toclevel-1 tocsection-2\"><span class=\"toctext\">Work Bench</span></li>\n</ul>\n<a href=\"/Recipes/By_Hand\">By Hand</a>\n"

/-- A table-of-contents line carrying two labels. -/
def twoLabelLine : String :=
  "<li class=\"toclevel-1 tocsection-2\"><span class=\"toctext\"><span>Iron Anvil</span> or <span>Lead Anvil</span></span></li>"

/-- A directory page with two table-of-contents entries and two sub-page links. -/
def twoLinkDirectory : String :=
  "<li class=\"toclevel-1 tocsection-1\"><span class=\"toctext\">By Hand</span></li>\n<li class=\"toclevel-1 tocsection-2\"><span class=\"toctext\">Work Bench</span></li>\n</ul>\n<a href=\"/Recipes/By_Hand\">By Hand</a>\n<a href=\"/Recipes/By_Hand\">Work Bench</a>\n"

/-- The record of `exampleSubPage` as `listWorkstationRecipes` returns it for the
group `g`: no id yet. -/
def exampleRecord (g : List Workstation) : Recipe := ⟨0, g, [⟨1, 1⟩, ⟨3, 1⟩], ⟨2, 1⟩⟩

/-! ## Relations between records and the lines they are read from -/

/-- What an ingredient read from the line `il` is (lines 246-250). -/
def IngredientOf (items : GoMap String Int) (ing : Ingredient) (il : String) : Prop :=
  ∃ t, submatch1 titleRe il = .ok t ∧ ing = ⟨items.index (TrimSpace t), parseCount il⟩

/-- What a record read from the product line `tr.1` and the ingredient lines `tr.2`
is (lines 225-252). -/
def RecordOf (items : GoMap String Int) (g : List Workstation) (r : Recipe)
    (tr : String × List String) : Prop :=
  r.Id = 0 ∧ r.Workstations = g ∧
  (∃ t, submatch1 titleRe tr.1 = .ok t ∧
    r.Product = ⟨items.index (TrimSpace t), parseCount tr.1⟩) ∧
  (∃ rs, submatch1 rowspanRe tr.1 = .ok rs ∧ tr.2.length = (Atoi (TrimSpace rs)).toNat) ∧
  List.Forall₂ (IngredientOf items) r.Ingredients tr.2

/-- A table-of-contents line whose only label is a blank. -/
def blankLabelLine : String :=
  "<li class=\"toclevel-1 tocsection-3\"><span class=\"tocnumber\">3</span> </span></li>"

/-! ## Example sub-pages -/

/-- The wiki serving `page` as the sub-page of the By Hand workstation. -/
def pageWiki (page : String) (address : String) : Option String :=
  if address = "http://terraria.gamepedia.com/Recipes/By_Hand" then some page else none

/-- A sub-page with one record: a row-start line, then `productLine`. -/
def recordPage (productLine : String) : String :=
  "<table>\n<tr><td style=\"text-align:center;width:1%\">\n" ++ productLine ++ "\n</table>\n"

/-- A product line for Torch with the multiplier 5 (Scenario B) and no ingredient rows. -/
def scenarioBLine : String := "<a title=\"Torch\" rowspan=\"0\"><img></a> (5)"

/-- A product line whose multiplier is `2 ^ 63`. -/
def bigCountLine : String := "<a title=\"Torch\" rowspan=\"0\"><img></a> (9223372036854775808)"

/-- A product line whose multiplier is `0`. -/
def zeroCountLine : String := "<a title=\"Torch\" rowspan=\"0\"><img></a> (0)"

/-- A product line whose name is not in `exampleIds`. -/
def unknownNameLine : String := "<a title=\"Mystery\" rowspan=\"0\"><img></a>"

/-- A sub-page with a complete record, then a record whose product lines have no
name attribute (Scenario D). -/
def missingTitlePage : String :=
  "<tr><td style=\"text-align:center;width:1%\">\n<a title=\"Torch\" rowspan=\"0\"><img></a>\n<tr><td style=\"text-align:center;width:1%\">\n<a rowspan=\"0\"><img></a>\n<b>Torch</b>\n"

/-- The page `missingTitlePage` cut before its second record. -/
def firstRecordPage : String :=
  "<tr><td style=\"text-align:center;width:1%\">\n<a title=\"Torch\" rowspan=\"0\"><img></a>\n"

/-! ## `listItems` (`src/tdb.go`, lines 108-138) -/

/-- The expression `src="([^"]+)"` (line 126). -/
def srcRe : Pattern := ⟨"src=\"".data, isNotQuote, "\"".data⟩

/-- The expression `[0-9]+` (line 131). -/
def digitsRe : Pattern := ⟨[], Char.isDigit, []⟩

/-- The text of `FindString(line)`: the leftmost match, the empty string without one. -/
def Pattern.FindString (p : Pattern) (line : String) : String :=
  match p.find line.data with
  | some r => String.mk (p.pre ++ r.1 ++ p.suf)
  | none => ""

/-- The item of a catalog marker line, lines 123-134: `idLine` is `body.Text()` after
the `body.Scan()` of line 130. -/
def parseItem (line idLine : String) : Except GoPanic Tdb.Item :=
  match submatch1 titleRe line with
  | .error e => .error e
  | .ok t =>
    match submatch1 srcRe line with
    | .error e => .error e
    | .ok s =>
      .ok ⟨Atoi (TrimSpace (digitsRe.FindString idLine)),
        Replace (TrimSpace t) "&#39;" "'", Replace (TrimSpace s) "%27" "'"⟩

/-- The line loop of lines 116-135 on one page. -/
def listItemsLoop : List String → List Tdb.Item → Except GoPanic (List Tdb.Item)
  | [], items => .ok items
  | line :: rest, items =>
    if !Contains line "<span style=\"white-space:nowrap\">" then listItemsLoop rest items
    else
      match rest with
      | [] =>
        match parseItem line "" with
        | .error e => .error e
        | .ok item => .ok (items ++ [item])
      | idLine :: rest2 =>
        match parseItem line idLine with
        | .error e => .error e
        | .ok item => listItemsLoop rest2 (items ++ [item])

/-- The page loop of lines 110-136 over the page numbers left. -/
def listItemsPages (fetch : String → Option String) :
    List Nat → List Tdb.Item → Except GoPanic (List Tdb.Item)
  | [], items => .ok items
  | page :: pages, items =>
    match fetch ("http://terraria.gamepedia.com/Item_IDs_Part" ++ Itoa (page : Int)) with
    | none => .error GoPanic.nilDereference
    | some body =>
      match listItemsLoop (scanLines body) items with
      | .error e => .error e
      | .ok items1 => listItemsPages fetch pages items1

/-- The function `listItems`: pages 1 to 13. -/
def listItems (fetch : String → Option String) : Except GoPanic (List Tdb.Item) :=
  listItemsPages fetch (List.range' 1 13) []

/-- The wiki serving `page` as the first item listing and empty pages as the other
twelve. -/
def itemsWiki (page : String) (address : String) : Option String :=
  if address = "http://terraria.gamepedia.com/Item_IDs_Part1" then some page else some ""

/-- A catalog marker line for Wood. -/
def woodMarkerLine : String :=
  "<td><span style=\"white-space:nowrap\"><a title=\"Wood\"><img src=\"/Wood.png\"></a></span></td>"


/-- A page with a marker line followed by a line without a digit. -/
def noIdPage : String := woodMarkerLine ++ "\n<td>none</td>\n"

/-- A page that ends with a marker line. -/
def markerOnlyPage : String := woodMarkerLine ++ "\n"

/-! ## The preprocessing of a sub-page (line 205) -/

/-- The row end followed by a row start, `</tr><tr>`. -/
def rowJoin : List Char := "</tr><tr>".data

/-- The row end, a line break and a row start. -/
def rowSplit : List Char := "</tr>\n<tr>".data

/-- A physical line with two table rows apart by a blank. -/
def twoRowLine : String := "<tr>a</tr> <tr>b</tr>"

/-- Two recipes with ids 1 and 2, the second one using Wood twice to make Wood. -/
def repeatRecipes : List Recipe :=
  [exampleRecipe, ⟨2, [⟨0, "By Hand"⟩], [⟨1, 1⟩, ⟨1, 2⟩], ⟨1, 1⟩⟩]

/-! ## Go maps: lookup after update -/

namespace GoMap

variable {κ α : Type} [DecidableEq κ]

theorem find?_filter_ne (l : List (κ × α)) (k k' : κ) :
    (l.filter (fun p => decide (p.1 ≠ k))).find? (fun p => decide (p.1 = k')) =
      if k' = k then none else l.find? (fun p => decide (p.1 = k')) := by
  induction l with
  | nil => simp
  | cons p l ih =>
    rw [List.filter_cons]
    by_cases hp : p.1 = k
    · have h1 : decide (p.1 ≠ k) = false := by simp [hp]
      rw [h1, if_neg (by simp), ih]
      by_cases hk : k' = k
      · simp [hk]
      · have hpk : ¬ decide (p.1 = k') = true := by
          simp only [decide_eq_true_eq]; exact fun h => hk (h ▸ hp)
        rw [if_neg hk, if_neg hk, List.find?_cons_of_neg (p := fun q : κ × α => decide (q.1 = k')) _ hpk]
    · have h1 : decide (p.1 ≠ k) = true := by simp [hp]
      rw [h1, if_pos rfl]
      by_cases hpk : p.1 = k'
      · have hk : ¬ k' = k := fun h => hp (hpk.trans h)
        have h2 : decide (p.1 = k') = true := by simp [hpk]
        rw [List.find?_cons_of_pos (p := fun q : κ × α => decide (q.1 = k')) _ h2, List.find?_cons_of_pos (p := fun q : κ × α => decide (q.1 = k')) _ h2, if_neg hk]
      · have h2 : ¬ decide (p.1 = k') = true := by simp [hpk]
        rw [List.find?_cons_of_neg (p := fun q : κ × α => decide (q.1 = k')) _ h2, List.find?_cons_of_neg (p := fun q : κ × α => decide (q.1 = k')) _ h2, ih]

@[simp] theorem get?_empty (k : κ) : (empty : GoMap κ α).get? k = none := rfl

theorem get?_set (m : GoMap κ α) (k k' : κ) (v : α) :
    (m.set k v).get? k' = if k' = k then some v else m.get? k' := by
  unfold get? set
  by_cases hk : k' = k
  · simp [List.find?_cons, hk]
  · have hk2 : ¬ k = k' := fun h => hk h.symm
    simp only [List.find?_cons, hk2, decide_False, find?_filter_ne, hk, if_false]

theorem get?_delete (m : GoMap κ α) (k k' : κ) :
    (m.delete k).get? k' = if k' = k then none else m.get? k' := by
  unfold get? delete
  by_cases hk : k' = k
  · simp [find?_filter_ne, hk]
  · simp only [find?_filter_ne, hk, if_false]

theorem index_set [Zeroed α] (m : GoMap κ α) (k k' : κ) (v : α) :
    (m.set k v).index k' = if k' = k then v else m.index k' := by
  unfold index
  rw [get?_set]
  split <;> rfl

end GoMap

/-! ## `Itoa` is injective -/

theorem digitChar_value (d : Nat) (h : d < 10) : (Nat.digitChar d).toNat - 48 = d := by
  interval_cases d <;> rfl

theorem digitChar_ne_minus (d : Nat) (h : d < 10) : Nat.digitChar d ≠ '-' := by
  interval_cases d <;> decide

theorem digitsValue_cons (a : Nat) (c : Char) (cs : List Char) :
    digitsValue a (c :: cs) = digitsValue (10 * a + (c.toNat - 48)) cs := rfl

theorem digitsValue_toDigitsCore (fuel : Nat) : ∀ (n : Nat) (ds : List Char), n < fuel →
    digitsValue 0 (Nat.toDigitsCore 10 fuel n ds) = digitsValue n ds := by
  induction fuel with
  | zero => intro n ds h; omega
  | succ fuel ih =>
    intro n ds h
    have hd : (Nat.digitChar (n % 10)).toNat - 48 = n % 10 :=
      digitChar_value _ (Nat.mod_lt _ (by decide))
    unfold Nat.toDigitsCore
    by_cases h0 : n / 10 = 0
    · simp only [h0, if_true]
      rw [digitsValue_cons, hd]
      have : n % 10 = n := by omega
      simp [this]
    · simp only [h0, if_false]
      rw [ih (n / 10) _ (by omega), digitsValue_cons, hd]
      congr 1
      omega

theorem toDigitsCore_head (fuel : Nat) : ∀ (n : Nat) (ds : List Char),
    ∃ d t, d < 10 ∧ Nat.toDigitsCore 10 (fuel + 1) n ds = Nat.digitChar d :: t := by
  induction fuel with
  | zero =>
    intro n ds
    refine ⟨n % 10, ds, Nat.mod_lt _ (by decide), ?_⟩
    unfold Nat.toDigitsCore
    by_cases h0 : n / 10 = 0
    · simp [h0]
    · simp [h0, Nat.toDigitsCore]
  | succ fuel ih =>
    intro n ds
    by_cases h0 : n / 10 = 0
    · refine ⟨n % 10, ds, Nat.mod_lt _ (by decide), ?_⟩
      rw [Nat.toDigitsCore]
      simp [h0]
    · obtain ⟨d, t, hd, ht⟩ := ih (n / 10) (Nat.digitChar (n % 10) :: ds)
      refine ⟨d, t, hd, ?_⟩
      rw [Nat.toDigitsCore]
      simp only [h0, if_false]
      exact ht

/-- The parse `unItoa` undoes `Itoa`. -/
theorem unItoa_Itoa (i : Int) : unItoa (Itoa i) = i := by
  cases i with
  | ofNat n =>
    obtain ⟨d, t, hd, ht⟩ := toDigitsCore_head n n []
    have hv := digitsValue_toDigitsCore (n + 1) n [] (by omega)
    have hne : ¬ Nat.digitChar d = '-' := digitChar_ne_minus d hd
    simp only [Itoa, unItoa, Nat.toDigits]
    rw [ht] at hv ⊢
    simp only [List.head?_cons, Option.some.injEq, hne, if_false]
    rw [hv]
    simp [digitsValue]
  | negSucc n =>
    have hv := digitsValue_toDigitsCore (n + 1 + 1) (n + 1) [] (by omega)
    simp only [Itoa, unItoa, Nat.toDigits, List.head?_cons, if_true, List.tail_cons]
    rw [hv]
    simp [digitsValue, Int.negSucc_eq]

theorem Itoa_injective {i j : Int} (h : Itoa i = Itoa j) : i = j := by
  have := congrArg unItoa h
  rwa [unItoa_Itoa, unItoa_Itoa] at this

theorem Itoa_eq_zero_iff (i : Int) : Itoa i = "0" ↔ i = 0 := by
  constructor
  · intro h
    exact Itoa_injective (h.trans (by decide : "0" = Itoa 0))
  · rintro rfl
    decide

/-! ## The three maps of the indexer, component by component -/

theorem get?_foldl_set {α : Type} (f : String → α) : ∀ (keys : List String)
    (m : GoMap String α) (k : String),
    (keys.foldl (fun m k => m.set k (f k)) m).get? k =
      if k ∈ keys then some (f k) else m.get? k := by
  intro keys
  induction keys with
  | nil => intro m k; simp
  | cons a keys ih =>
    intro m k
    rw [List.foldl_cons, ih, GoMap.get?_set]
    by_cases h1 : k ∈ keys
    · simp [h1]
    · by_cases h2 : k = a
      · simp [h2]
      · simp [h1, h2]

theorem itemIndex_foldl_ingredients (items : GoMap Int Tdb.Item) (r : Recipe) :
    ∀ (ings : List Ingredient) (st : Index),
    (ings.foldl (indexIngredient items r) st).itemIndex =
      (ings.map (fun g => Itoa g.Item)).foldl
        (fun m k => m.set k (items.index (unItoa k))) st.itemIndex := by
  intro ings
  induction ings with
  | nil => intro st; rfl
  | cons g ings ih =>
    intro st
    rw [List.foldl_cons, ih, List.map_cons, List.foldl_cons]
    simp only [indexIngredient, unItoa_Itoa]

theorem itemIndex_indexRecipe (items : GoMap Int Tdb.Item) (st : Index) (r : Recipe) :
    (indexRecipe items st r).itemIndex =
      (r.refs.map Itoa).foldl (fun m k => m.set k (items.index (unItoa k))) st.itemIndex := by
  unfold indexRecipe
  simp only [itemIndex_foldl_ingredients, Recipe.refs, List.map_cons, List.foldl_cons,
    List.map_map, unItoa_Itoa]
  rfl

theorem itemIndex_foldl_recipes (items : GoMap Int Tdb.Item) :
    ∀ (recipes : List Recipe) (st : Index),
    (recipes.foldl (indexRecipe items) st).itemIndex =
      (refKeys recipes).foldl (fun m k => m.set k (items.index (unItoa k))) st.itemIndex := by
  intro recipes
  induction recipes with
  | nil => intro st; rfl
  | cons r recipes ih =>
    intro st
    rw [List.foldl_cons, ih, itemIndex_indexRecipe]
    simp only [refKeys, List.flatMap_cons, List.foldl_append]

theorem recipeIndex_foldl_ingredients (items : GoMap Int Tdb.Item) (r : Recipe) :
    ∀ (ings : List Ingredient) (st : Index),
    (ings.foldl (indexIngredient items r) st).recipeIndex = st.recipeIndex := by
  intro ings
  induction ings with
  | nil => intro st; rfl
  | cons g ings ih => intro st; rw [List.foldl_cons, ih]; rfl

theorem recipeIndex_foldl_recipes (items : GoMap Int Tdb.Item) :
    ∀ (recipes : List Recipe) (st : Index),
    (recipes.foldl (indexRecipe items) st).recipeIndex =
      recipes.foldl (fun m r => m.set (Itoa r.Id) r) st.recipeIndex := by
  intro recipes
  induction recipes with
  | nil => intro st; rfl
  | cons r recipes ih =>
    intro st
    rw [List.foldl_cons, ih, List.foldl_cons]
    simp only [indexRecipe, recipeIndex_foldl_ingredients]

theorem relations_foldl_ingredients (items : GoMap Int Tdb.Item) (r : Recipe) (k : String) :
    ∀ (ings : List Ingredient) (st : Index),
    (ings.foldl (indexIngredient items r) st).relations.index k =
      st.relations.index k ++
        ((ings.map (fun g => g.Item)).filter (fun i => decide (Itoa i = k))).map
          (fun _ => r.Id) := by
  intro ings
  induction ings with
  | nil => intro st; simp
  | cons g ings ih =>
    intro st
    rw [List.foldl_cons, ih]
    simp only [indexIngredient, GoMap.index_set, List.map_cons, List.filter_cons]
    by_cases h : Itoa g.Item = k
    · simp [h]
    · have h2 : ¬ k = Itoa g.Item := fun e => h e.symm
      simp [h, h2]

theorem relations_indexRecipe (items : GoMap Int Tdb.Item) (st : Index) (r : Recipe)
    (k : String) :
    (indexRecipe items st r).relations.index k =
      st.relations.index k ++
        (r.refs.filter (fun i => decide (Itoa i = k))).map (fun _ => r.Id) := by
  unfold indexRecipe
  simp only [relations_foldl_ingredients, GoMap.index_set, Recipe.refs, List.filter_cons]
  by_cases h : Itoa r.Product.Item = k
  · simp [h]
  · have h2 : ¬ k = Itoa r.Product.Item := fun e => h e.symm
    simp [h, h2]

theorem relations_foldl_recipes (items : GoMap Int Tdb.Item) (k : String) :
    ∀ (recipes : List Recipe) (st : Index),
    (recipes.foldl (indexRecipe items) st).relations.index k =
      st.relations.index k ++ relationIds k recipes := by
  intro recipes
  induction recipes with
  | nil => intro st; simp [relationIds]
  | cons r recipes ih =>
    intro st
    rw [List.foldl_cons, ih, relations_indexRecipe]
    simp [relationIds, List.flatMap_cons]

/-- The list `relations[k]` after the indexer has run. -/
theorem relations_mainIndex (items : GoMap Int Tdb.Item) (recipes : List Recipe)
    (k : String) : (mainIndex items recipes).relations.index k = relationIds k recipes := by
  unfold mainIndex
  simp only [relations_foldl_recipes]
  simp [GoMap.index, Zeroed.zero]

/-- The lookup `itemIndex[k]` after the indexer has run. -/
theorem itemIndex_mainIndex (items : GoMap Int Tdb.Item) (recipes : List Recipe)
    (k : String) :
    (mainIndex items recipes).itemIndex.get? k =
      if k = "0" then none
      else if k ∈ refKeys recipes then some (items.index (unItoa k)) else none := by
  unfold mainIndex
  simp only [GoMap.get?_delete, itemIndex_foldl_recipes, get?_foldl_set, GoMap.get?_empty]

theorem mem_refKeys {recipes : List Recipe} {k : String} :
    k ∈ refKeys recipes ↔
      ∃ r ∈ recipes, ∃ i, (i = r.Product.Item ∨ ∃ g ∈ r.Ingredients, g.Item = i) ∧
        k = Itoa i := by
  simp only [refKeys, List.mem_flatMap, List.mem_map, Recipe.refs, List.mem_cons]
  constructor
  · rintro ⟨r, hr, i, hi, rfl⟩
    refine ⟨r, hr, i, ?_, rfl⟩
    rcases hi with hi | ⟨g, hg, rfl⟩
    · exact Or.inl hi
    · exact Or.inr ⟨g, hg, rfl⟩
  · rintro ⟨r, hr, i, hi, rfl⟩
    refine ⟨r, hr, i, ?_, rfl⟩
    rcases hi with hi | ⟨g, hg, rfl⟩
    · exact Or.inl hi
    · exact Or.inr ⟨g, hg, rfl⟩

theorem get?_foldl_setBy_not_mem {β : Type} (key : β → String) :
    ∀ (rs : List β) (m : GoMap String β) (k : String), k ∉ rs.map key →
    (rs.foldl (fun m r => m.set (key r) r) m).get? k = m.get? k := by
  intro rs
  induction rs with
  | nil => intro m k _; rfl
  | cons a rs ih =>
    intro m k hk
    simp only [List.map_cons, List.mem_cons, not_or] at hk
    rw [List.foldl_cons, ih _ _ hk.2, GoMap.get?_set, if_neg hk.1]

theorem get?_foldl_setBy_nodup {β : Type} (key : β → String) :
    ∀ (rs : List β) (m : GoMap String β), (rs.map key).Nodup → ∀ r ∈ rs,
    (rs.foldl (fun m r => m.set (key r) r) m).get? (key r) = some r := by
  intro rs
  induction rs with
  | nil => intro m _ r hr; cases hr
  | cons a rs ih =>
    intro m hnd r hr
    rw [List.map_cons, List.nodup_cons] at hnd
    rw [List.foldl_cons]
    rcases List.mem_cons.1 hr with rfl | hr
    · rw [get?_foldl_setBy_not_mem key rs _ _ hnd.1, GoMap.get?_set, if_pos rfl]
    · exact ih _ hnd.2 r hr

theorem hasKey_foldl_setBy {β : Type} (key : β → String) :
    ∀ (rs : List β) (m : GoMap String β) (k : String),
    (rs.foldl (fun m r => m.set (key r) r) m).HasKey k ↔ m.HasKey k ∨ k ∈ rs.map key := by
  intro rs
  induction rs with
  | nil => intro m k; simp
  | cons a rs ih =>
    intro m k
    rw [List.foldl_cons, ih]
    simp only [GoMap.HasKey, GoMap.get?_set, List.map_cons, List.mem_cons]
    by_cases h : k = key a
    · simp [h]
    · simp [h]

/-! ## The id loop of `listRecipes` -/

theorem assignIds_length : ∀ (l : List Recipe) (i : Nat), (assignIds i l).length = l.length := by
  intro l
  induction l with
  | nil => intro i; rfl
  | cons r l ih => intro i; simp [assignIds, ih]

theorem assignIds_getElem : ∀ (l : List Recipe) (i j : Nat) (h : j < (assignIds i l).length),
    ((assignIds i l)[j]).Id = (i : Int) + j + 1 := by
  intro l
  induction l with
  | nil => intro i j h; simp [assignIds] at h
  | cons r l ih =>
    intro i j h
    cases j with
    | zero => simp [assignIds]
    | succ j =>
      simp only [assignIds, List.getElem_cons_succ]
      rw [ih]
      push_cast
      omega

theorem assignIds_id_gt : ∀ (l : List Recipe) (i : Nat), ∀ r ∈ assignIds i l, (i : Int) < r.Id := by
  intro l
  induction l with
  | nil => intro i r hr; simp [assignIds] at hr
  | cons a l ih =>
    intro i r hr
    simp only [assignIds, List.mem_cons] at hr
    rcases hr with rfl | hr
    · simp
    · have := ih (i + 1) r hr
      push_cast at this
      omega

theorem assignIds_keys_nodup : ∀ (l : List Recipe) (i : Nat),
    ((assignIds i l).map (fun r => Itoa r.Id)).Nodup := by
  intro l
  induction l with
  | nil => intro i; simp [assignIds]
  | cons a l ih =>
    intro i
    simp only [assignIds, List.map_cons, List.nodup_cons, List.mem_map, not_exists, not_and]
    refine ⟨?_, ih (i + 1)⟩
    intro r hr heq
    have h1 := assignIds_id_gt l (i + 1) r hr
    have h2 := Itoa_injective heq
    simp only at h2
    push_cast at h1
    omega

theorem listRecipes_eq_assignIds {fetch : String → Option String} {items : GoMap String Int}
    {rs : List Recipe} (h : listRecipes fetch items = .ok rs) :
    ∃ l, rs = assignIds 0 l := by
  unfold listRecipes at h
  split at h
  · cases h
  · split at h
    · cases h
    · injection h with h
      exact ⟨_, h.symm⟩

/-! ## The loops of `listRecipes` and `listWorkstationRecipes` -/

theorem Scan_rest_le (c : Scanner) : c.Scan.2.rest.length ≤ c.rest.length := by
  unfold Scanner.Scan
  cases c.rest <;> simp

theorem scan_rest_le (c : Scanner) : (scan c).rest.length ≤ c.rest.length := by
  unfold scan
  dsimp only
  split
  · exact Nat.le_trans (Scan_rest_le _) (Scan_rest_le _)
  · exact Scan_rest_le _

theorem ingredientsLoop_ok (items : GoMap String Int) : ∀ (n : Nat) (b : Scanner)
    (acc : List Ingredient) (b2 : Scanner) (out : List Ingredient),
    ingredientsLoop items n b acc = .ok (b2, out) → b2.rest.length ≤ b.rest.length := by
  intro n
  induction n with
  | zero =>
    intro b acc b2 out h
    simp only [ingredientsLoop, Except.ok.injEq, Prod.mk.injEq] at h
    rw [h.1]
  | succ n ih =>
    intro b acc b2 out h
    rw [ingredientsLoop] at h
    split at h
    · cases h
    · have h1 := ih _ _ _ _ h
      have h2 : (scan (scan b)).rest.length ≤ b.rest.length :=
        Nat.le_trans (scan_rest_le _) (scan_rest_le _)
      omega

theorem recipesLoop_workstations (items : GoMap String Int) (g : List Workstation) :
    ∀ (fuel : Nat) (b : Scanner) (acc res : List Recipe),
    recipesLoop items g fuel b acc = some (.ok res) →
    (∀ r ∈ acc, r.Workstations = g) → ∀ r ∈ res, r.Workstations = g := by
  intro fuel
  induction fuel with
  | zero => intro b acc res h; simp [recipesLoop] at h
  | succ fuel ih =>
    intro b acc res h hacc
    rw [recipesLoop] at h
    split at h
    · split at h
      · exact ih _ _ _ h hacc
      · simp only [Option.some.injEq, Except.ok.injEq] at h
        rw [← h]; exact hacc
    · dsimp only at h
      split at h
      · simp at h
      · split at h
        · simp at h
        · split at h
          · simp at h
          · refine ih _ _ _ h ?_
            intro r hr
            rcases List.mem_append.1 hr with hr | hr
            · exact hacc r hr
            · simp only [List.mem_singleton] at hr
              rw [hr]

/-- Every recipe of a parsed sub-page carries the group passed in. -/
theorem listWorkstationRecipes_workstations {fetch : String → Option String}
    {items : GoMap String Int} {g : List Workstation} {url : String} {page : List Recipe}
    (h : listWorkstationRecipes fetch items g url = .ok page) :
    ∀ r ∈ page, r.Workstations = g := by
  unfold listWorkstationRecipes at h
  split at h
  · cases h
  · dsimp only at h
    split at h
    · rename_i r hr
      rw [h] at hr
      exact recipesLoop_workstations items g _ _ _ _ hr (by simp)
    · injection h with h
      rw [← h]; simp

theorem scan_rest_lt (c : Scanner) (h : c.rest ≠ []) :
    (scan c).rest.length < c.rest.length := by
  have h1 : c.Scan.2.rest.length < c.rest.length := by
    unfold Scanner.Scan
    cases hc : c.rest with
    | nil => exact absurd hc h
    | cons l ls => simp
  unfold scan
  dsimp only
  split
  · exact Nat.lt_of_le_of_lt (Scan_rest_le _) h1
  · exact h1

theorem scan_text_of_rest_nil (c : Scanner) (h : c.rest = []) : (scan c).text = "" := by
  unfold scan Scanner.Scan
  rw [h]
  dsimp only
  split <;> rfl

/-- The record loop reaches the end of the page within one iteration more than
the page has lines left. -/
theorem recipesLoop_isSome (items : GoMap String Int) (g : List Workstation) :
    ∀ (fuel : Nat) (b : Scanner) (acc : List Recipe), b.rest.length < fuel →
    (recipesLoop items g fuel b acc).isSome = true := by
  intro fuel
  induction fuel with
  | zero => intro b acc h; omega
  | succ fuel ih =>
    intro b acc h
    rw [recipesLoop]
    split
    · cases hb : b.rest with
      | nil => simp [Scanner.Scan, hb]
      | cons l ls =>
        simp only [Scanner.Scan, hb]
        apply ih
        rw [hb] at h
        simp only [List.length_cons] at h ⊢
        omega
    · dsimp only
      split
      · rfl
      · rename_i t ht
        have hne : b.rest ≠ [] := by
          intro hb
          rw [scan_text_of_rest_nil b hb] at ht
          have he : submatch1 titleRe "" = .error GoPanic.indexOutOfRange := by decide
          rw [he] at ht
          cases ht
        have hlt := scan_rest_lt b hne
        split
        · rfl
        · split
          · rfl
          · rename_i b2 ings hi
            apply ih
            have := ingredientsLoop_ok items _ _ _ _ _ hi
            omega

/-- The value of `listWorkstationRecipes` is the value of its record loop. -/
theorem listWorkstationRecipes_eq_loop (fetch : String → Option String)
    (items : GoMap String Int) (g : List Workstation) (url raw : String)
    (h : fetch ("http://terraria.gamepedia.com" ++ url) = some raw) :
    recipesLoop items g ((scanLines (Replace raw "</tr><tr>" "</tr>\n<tr>")).length + 1)
        ⟨"", scanLines (Replace raw "</tr><tr>" "</tr>\n<tr>")⟩ [] =
      some (listWorkstationRecipes fetch items g url) := by
  have hs := recipesLoop_isSome items g
    ((scanLines (Replace raw "</tr><tr>" "</tr>\n<tr>")).length + 1)
    ⟨"", scanLines (Replace raw "</tr><tr>" "</tr>\n<tr>")⟩ [] (by simp)
  unfold listWorkstationRecipes
  rw [h]
  dsimp only
  split
  · rename_i r hr
    exact hr
  · rename_i hn
    rw [hn] at hs
    cases hs

theorem listRecipesLoop_listing (fetch : String → Option String) (items : GoMap String Int) :
    ∀ (lines : List String) (st st1 : DirState) (rest : List String),
    listingPhase fetch items lines st = .ok (st1, rest) →
    listRecipesLoop fetch items lines st = listRecipesLoop fetch items rest st1 := by
  intro lines
  induction lines with
  | nil =>
    intro st st1 rest h
    simp only [listingPhase, Except.ok.injEq, Prod.mk.injEq] at h
    rw [← h.1, ← h.2]
  | cons line ls ih =>
    intro st st1 rest h
    rw [listingPhase] at h
    split at h
    · split at h
      · cases h
      · rename_i st2 hst
        rw [listRecipesLoop, hst]
        exact ih _ _ _ h
    · simp only [Except.ok.injEq, Prod.mk.injEq] at h
      rw [← h.1, ← h.2]

/-- The detail phase pairs the links with the queued groups in order: with as many
groups as links or more, and every sub-page parsed, the loop ends with the pages
appended in link order and the paired groups popped. -/
theorem listRecipesLoop_detail (fetch : String → Option String) (items : GoMap String Int) :
    ∀ (lines : List String) (q : List (List Workstation)) (acc : List Recipe)
      (urls : List String) (pages : List (List Recipe)),
    detailLinks lines = urls.map Except.ok →
    urls.length ≤ q.length →
    List.Forall₂ (fun (gu : List Workstation × String) (page : List Recipe) =>
      listWorkstationRecipes fetch items gu.1 gu.2 = .ok page) (q.zip urls) pages →
    listRecipesLoop fetch items lines ⟨q, false, acc⟩ =
      .ok ⟨q.drop urls.length, false, acc ++ pages.flatten⟩ := by
  intro lines
  induction lines with
  | nil =>
    intro q acc urls pages hu hm hp
    cases urls with
    | nil =>
      simp only [List.zip_nil_right] at hp
      cases hp
      simp [listRecipesLoop]
    | cons u us => simp [detailLinks] at hu
  | cons line ls ih =>
    intro q acc urls pages hu hm hp
    rw [detailLinks] at hu
    rw [listRecipesLoop, listRecipesStep]
    by_cases hc : (!Contains line "<a href=\"/Recipes/") = true
    · rw [if_pos hc] at hu
      simp only [Bool.false_eq_true, if_false, if_pos hc]
      exact ih q acc urls pages hu hm hp
    · rw [if_neg hc] at hu
      simp only [Bool.false_eq_true, if_false, if_neg hc]
      cases urls with
      | nil => simp at hu
      | cons u us =>
        simp only [List.map_cons, List.cons.injEq] at hu
        obtain ⟨hu1, hu2⟩ := hu
        cases q with
        | nil => simp at hm
        | cons g gs =>
          cases hsub : submatch1 linkRe line with
          | error e => rw [hsub] at hu1; cases hu1
          | ok v =>
            rw [hsub] at hu1
            simp only [Except.ok.injEq] at hu1
            simp only [List.zip_cons_cons] at hp
            cases hp with
            | cons hp1 hp2 =>
              rename_i page ps
              simp only at hp1
              simp only [hu1, hp1]
              rw [ih gs _ us ps hu2 (by simpa using hm) hp2]
              simp

theorem listRecipesLoop_detail_fails (fetch : String → Option String)
    (items : GoMap String Int) :
    ∀ (lines : List String) (q : List (List Workstation)) (acc : List Recipe),
    q.length < (detailLinks lines).length →
    ∃ e, listRecipesLoop fetch items lines ⟨q, false, acc⟩ = .error e := by
  intro lines
  induction lines with
  | nil => intro q acc h; simp [detailLinks] at h
  | cons line ls ih =>
    intro q acc h
    rw [detailLinks] at h
    rw [listRecipesLoop, listRecipesStep]
    by_cases hc : (!Contains line "<a href=\"/Recipes/") = true
    · rw [if_pos hc] at h
      simp only [Bool.false_eq_true, if_false, if_pos hc]
      exact ih q acc h
    · rw [if_neg hc] at h
      simp only [Bool.false_eq_true, if_false, if_neg hc]
      cases hsub : submatch1 linkRe line with
      | error e => exact ⟨e, rfl⟩
      | ok v =>
        cases q with
        | nil => exact ⟨GoPanic.indexOutOfRange, rfl⟩
        | cons g gs =>
          cases hpage : listWorkstationRecipes fetch items g (TrimSpace v) with
          | error e => exact ⟨e, by simp only [hpage]⟩
          | ok page =>
            simp only [hpage]
            apply ih
            simp only [List.length_cons] at h
            omega

theorem assignIds_map_workstations : ∀ (l : List Recipe) (i : Nat),
    (assignIds i l).map (fun r => r.Workstations) = l.map (fun r => r.Workstations) := by
  intro l
  induction l with
  | nil => intro i; rfl
  | cons r l ih => intro i; simp [assignIds, ih]

theorem pages_workstations (fetch : String → Option String) (items : GoMap String Int) :
    ∀ (q : List (List Workstation)) (urls : List String) (pages : List (List Recipe)),
    List.Forall₂ (fun (gu : List Workstation × String) (page : List Recipe) =>
      listWorkstationRecipes fetch items gu.1 gu.2 = .ok page) (q.zip urls) pages →
    pages.flatten.map (fun r => r.Workstations) =
      ((q.zip pages).map (fun gp => List.replicate gp.2.length gp.1)).flatten := by
  intro q
  induction q with
  | nil => intro urls pages hp; simp only [List.zip_nil_left] at hp; cases hp; rfl
  | cons g gs ih =>
    intro urls pages hp
    cases urls with
    | nil => simp only [List.zip_nil_right] at hp; cases hp; rfl
    | cons u us =>
      simp only [List.zip_cons_cons] at hp
      cases hp with
      | cons hp1 hp2 =>
        rename_i page ps
        have hw := listWorkstationRecipes_workstations hp1
        simp only [List.flatten_cons, List.map_append, List.zip_cons_cons, List.map_cons]
        rw [ih us ps hp2]
        congr 1
        apply List.eq_replicate_iff.2
        refine ⟨by simp, ?_⟩
        intro w hw2
        obtain ⟨r, hr, rfl⟩ := List.mem_map.1 hw2
        exact hw r hr

/-- A run of `listRecipes` in two phases: the listing phase queues `q`, the detail
phase meets the links `urls`, no more than groups were queued, and every sub-page
is parsed. -/
theorem listRecipes_of_phases (fetch : String → Option String) (items : GoMap String Int)
    (dir : String) (q : List (List Workstation)) (rest urls : List String)
    (pages : List (List Recipe))
    (hd : fetch "http://terraria.gamepedia.com/Recipes" = some dir)
    (hl : listingPhase fetch items (scanLines dir) ⟨[], true, []⟩ = .ok (⟨q, false, []⟩, rest))
    (hu : detailLinks rest = urls.map Except.ok)
    (hm : urls.length ≤ q.length)
    (hp : List.Forall₂ (fun (gu : List Workstation × String) (page : List Recipe) =>
      listWorkstationRecipes fetch items gu.1 gu.2 = .ok page) (q.zip urls) pages) :
    listRecipesLoop fetch items (scanLines dir) ⟨[], true, []⟩ =
      .ok ⟨q.drop urls.length, false, pages.flatten⟩ ∧
    listRecipes fetch items = .ok (assignIds 0 pages.flatten) := by
  have h1 : listRecipesLoop fetch items (scanLines dir) ⟨[], true, []⟩ =
      .ok ⟨q.drop urls.length, false, pages.flatten⟩ := by
    rw [listRecipesLoop_listing fetch items _ _ _ _ hl,
      listRecipesLoop_detail fetch items rest q [] urls pages hu hm hp]
    simp
  refine ⟨h1, ?_⟩
  unfold listRecipes
  rw [hd]
  simp only [h1]

theorem pages_getElem (fetch : String → Option String) (items : GoMap String Int) :
    ∀ (q : List (List Workstation)) (urls : List String) (pages : List (List Recipe)),
    List.Forall₂ (fun (gu : List Workstation × String) (page : List Recipe) =>
      listWorkstationRecipes fetch items gu.1 gu.2 = .ok page) (q.zip urls) pages →
    ∀ (k : Nat) (g : List Workstation) (page : List Recipe),
      q[k]? = some g → pages[k]? = some page →
      ∃ u, urls[k]? = some u ∧ listWorkstationRecipes fetch items g u = .ok page := by
  intro q
  induction q with
  | nil => intro urls pages hp k g page hq; simp at hq
  | cons g0 gs ih =>
    intro urls pages hp k g page hq hpg
    cases urls with
    | nil => simp only [List.zip_nil_right] at hp; cases hp; simp at hpg
    | cons u us =>
      simp only [List.zip_cons_cons] at hp
      cases hp with
      | cons hp1 hp2 =>
        rename_i page0 ps
        cases k with
        | zero =>
          simp only [List.getElem?_cons_zero, Option.some.injEq] at hq hpg
          subst hq; subst hpg
          exact ⟨u, by simp, hp1⟩
        | succ k =>
          simp only [List.getElem?_cons_succ] at hq hpg ⊢
          exact ih us ps hp2 k g page hq hpg

/-! ## The match bound of `FindAllStringSubmatch` is enough -/

theorem matchAt_rest_length (p : Pattern) (s cap rest : List Char)
    (h : p.matchAt s = some (cap, rest)) : rest.length < s.length := by
  unfold Pattern.matchAt at h
  split at h
  · dsimp only at h
    split at h
    · rename_i hrun
      simp only [Option.some.injEq, Prod.mk.injEq] at h
      rw [← h.2]
      simp only [Bool.and_eq_true, Bool.not_eq_true', List.isEmpty_eq_false] at hrun
      have h1 := congrArg List.length
        (List.takeWhile_append_dropWhile p.cls (List.drop p.pre.length s))
      have h2 : 0 < (List.takeWhile p.cls (List.drop p.pre.length s)).length :=
        List.length_pos.2 hrun.1
      simp only [List.length_append, List.length_drop] at h1 ⊢
      omega
    · cases h
  · cases h

theorem find_rest_length (p : Pattern) : ∀ (s cap rest : List Char),
    p.find s = some (cap, rest) → rest.length < s.length := by
  intro s
  induction s with
  | nil => intro cap rest h; exact matchAt_rest_length p _ _ _ h
  | cons c cs ih =>
    intro cap rest h
    rw [Pattern.find] at h
    split at h
    · rename_i r hr
      simp only [Option.some.injEq] at h
      rw [h] at hr
      exact matchAt_rest_length p _ _ _ hr
    · have := ih cap rest h
      simp only [List.length_cons]
      omega

/-- More than `s.length` rounds find no further match in `s`. -/
theorem findAllAux_fuel (p : Pattern) : ∀ (fuel : Nat) (s : List Char), s.length ≤ fuel →
    p.findAllAux (fuel + 1) s = p.findAllAux fuel s := by
  intro fuel
  induction fuel with
  | zero =>
    intro s hs
    have hnil : s = [] := List.length_eq_zero.1 (Nat.le_zero.1 hs)
    subst hnil
    cases hf : p.find [] with
    | none => simp [Pattern.findAllAux, hf]
    | some r =>
      have := find_rest_length p [] r.1 r.2 hf
      simp at this
  | succ fuel ih =>
    intro s hs
    rw [Pattern.findAllAux]
    conv => rhs; rw [Pattern.findAllAux]
    cases hf : p.find s with
    | none => rfl
    | some r =>
      obtain ⟨cap, rest⟩ := r
      have := find_rest_length p s cap rest hf
      simp only
      rw [ih rest (by omega)]

/-! ## The label loop of the listing phase -/

theorem prefixes_length {α : Type} : ∀ (l : List α), (prefixes l).length = l.length := by
  intro l
  induction l with
  | nil => rfl
  | cons x l ih => simp [prefixes, ih]

theorem prefixes_getElem? {α : Type} : ∀ (l : List α) (k : Nat), k < l.length →
    (prefixes l)[k]? = some (l.take (k + 1)) := by
  intro l
  induction l with
  | nil => intro k h; simp at h
  | cons x l ih =>
    intro k h
    cases k with
    | zero => simp [prefixes]
    | succ k =>
      simp only [List.length_cons] at h
      simp only [prefixes, List.getElem?_cons_succ, List.getElem?_map, ih k (by omega)]
      simp

theorem queueLabel_eq (items : GoMap String Int) (ws : List Workstation)
    (q : List (List Workstation)) (label : String) :
    queueLabel items (ws, q) label =
      (ws ++ [labelWorkstation items label], q ++ [ws ++ [labelWorkstation items label]]) := by
  unfold queueLabel labelWorkstation
  dsimp only
  cases items.get? (TrimSpace label) <;> rfl

theorem foldl_queueLabel (items : GoMap String Int) : ∀ (labels : List String)
    (ws : List Workstation) (q : List (List Workstation)),
    labels.foldl (queueLabel items) (ws, q) =
      (ws ++ labels.map (labelWorkstation items),
        q ++ (prefixes labels).map (fun pre => ws ++ pre.map (labelWorkstation items))) := by
  intro labels
  induction labels with
  | nil => intro ws q; simp [prefixes]
  | cons x labels ih =>
    intro ws q
    rw [List.foldl_cons, queueLabel_eq, ih]
    simp [prefixes, List.map_map, Function.comp_def]

/-- The queue after a table-of-contents line: one group more per label of the
line, the group of the `k`-th label holding the workstations of the first `k`
labels. -/
theorem parseListingLine_eq (items : GoMap String Int) (q : List (List Workstation))
    (line : String) :
    parseListingLine items q line =
      q ++ (prefixes (labelRe.FindAllStringSubmatch line)).map
        (fun pre => pre.map (labelWorkstation items)) := by
  unfold parseListingLine
  rw [foldl_queueLabel]
  simp

/-! ## Claims on the indexer -/

/-- C1: in a recipe list returned by `listRecipes` the recipe at position `i` has
`Id = i + 1`, and the `recipeIndex` built by `main` from that list has exactly the
keys `Itoa 1`, ..., `Itoa n`, the key `Itoa k` holding the recipe at position
`k - 1`. -/
theorem C1_recipe_ids_dense (fetch : String → Option String) (items : GoMap String Int)
    (catalog : GoMap Int Tdb.Item) (rs : List Recipe)
    (h : listRecipes fetch items = .ok rs) :
    (∀ (i : Nat) (hi : i < rs.length), rs[i].Id = (i : Int) + 1) ∧
    (∀ k : String, (mainIndex catalog rs).recipeIndex.HasKey k ↔
      ∃ j : Nat, 1 ≤ j ∧ j ≤ rs.length ∧ k = Itoa (j : Int)) ∧
    (∀ j : Nat, 1 ≤ j → j ≤ rs.length →
      (mainIndex catalog rs).recipeIndex.get? (Itoa (j : Int)) = rs[j - 1]?) := by
  obtain ⟨l, rfl⟩ := listRecipes_eq_assignIds h
  have hid : ∀ (i : Nat) (hi : i < (assignIds 0 l).length),
      (assignIds 0 l)[i].Id = (i : Int) + 1 := by
    intro i hi
    rw [assignIds_getElem]
    simp
  have hmap : (mainIndex catalog (assignIds 0 l)).recipeIndex =
      (assignIds 0 l).foldl (fun m r => m.set (Itoa r.Id) r) GoMap.empty := by
    unfold mainIndex
    simp only [recipeIndex_foldl_recipes]
  refine ⟨hid, ?_, ?_⟩
  · intro k
    rw [hmap, hasKey_foldl_setBy]
    simp only [GoMap.HasKey, GoMap.get?_empty, Option.isSome_none, Bool.false_eq_true,
      false_or, List.mem_map]
    constructor
    · rintro ⟨r, hr, rfl⟩
      obtain ⟨j, hj, rfl⟩ := List.mem_iff_getElem.1 hr
      refine ⟨j + 1, by omega, by omega, ?_⟩
      rw [hid j hj]
      push_cast
      rfl
    · rintro ⟨j, h1, h2, rfl⟩
      have hj : j - 1 < (assignIds 0 l).length := by omega
      refine ⟨(assignIds 0 l)[j - 1], List.getElem_mem _, ?_⟩
      rw [hid (j - 1) hj]
      congr 1
      omega
  · intro j h1 h2
    have hj : j - 1 < (assignIds 0 l).length := by omega
    have hkey : Itoa ((assignIds 0 l)[j - 1]).Id = Itoa (j : Int) := by
      rw [hid (j - 1) hj]
      congr 1
      omega
    rw [hmap, List.getElem?_eq_getElem hj, ← hkey]
    exact get?_foldl_setBy_nodup (fun r : Recipe => Itoa r.Id) _ _ (assignIds_keys_nodup l 0) _
      (List.getElem_mem _)

/-- C1 at the example pages: the run returns one recipe with id 1, the only key of
`recipeIndex` is `"1"`. -/
theorem C1_recipe_ids_dense_witness :
    listRecipes exampleFetch exampleIds = .ok [exampleRecipe] ∧
    ((∀ (i : Nat) (hi : i < [exampleRecipe].length), [exampleRecipe][i].Id = (i : Int) + 1) ∧
    (∀ k : String, (mainIndex exampleCatalog [exampleRecipe]).recipeIndex.HasKey k ↔
      ∃ j : Nat, 1 ≤ j ∧ j ≤ [exampleRecipe].length ∧ k = Itoa (j : Int)) ∧
    (∀ j : Nat, 1 ≤ j → j ≤ [exampleRecipe].length →
      (mainIndex exampleCatalog [exampleRecipe]).recipeIndex.get? (Itoa (j : Int)) =
        [exampleRecipe][j - 1]?)) :=
  ⟨by decide!, C1_recipe_ids_dense exampleFetch exampleIds exampleCatalog [exampleRecipe]
    (by decide!)⟩

/-- C2: for every recipe `r` of the indexed list and every item id `i` it
references, as its product or as an ingredient, the list `relations[Itoa i]`
built by `main` contains `r.Id`. -/
theorem C2_relations_contain_ids (items : GoMap Int Tdb.Item) (recipes : List Recipe)
    (r : Recipe) (i : Int) (hr : r ∈ recipes)
    (hi : i = r.Product.Item ∨ ∃ g ∈ r.Ingredients, g.Item = i) :
    r.Id ∈ (mainIndex items recipes).relations.index (Itoa i) := by
  rw [relations_mainIndex]
  simp only [relationIds, List.mem_flatMap, List.mem_map, List.mem_filter, decide_eq_true_eq]
  refine ⟨r, hr, i, ⟨?_, rfl⟩, rfl⟩
  simp only [Recipe.refs, List.mem_cons, List.mem_map]
  rcases hi with hi | ⟨g, hg, rfl⟩
  · exact Or.inl hi
  · exact Or.inr ⟨g, hg, rfl⟩

/-- C2 on Scenario A: the single recipe Torch = Wood + Gel gives
`relations["1"] = relations["2"] = relations["3"] = [1]`. -/
theorem C2_relations_contain_ids_witness :
    (exampleRecipe ∈ [exampleRecipe] ∧
      ((3 : Int) = exampleRecipe.Product.Item ∨ ∃ g ∈ exampleRecipe.Ingredients, g.Item = 3) ∧
      exampleRecipe.Id ∈ (mainIndex exampleCatalog [exampleRecipe]).relations.index (Itoa 3)) ∧
    (mainIndex exampleCatalog [exampleRecipe]).relations.get? "1" = some [1] ∧
    (mainIndex exampleCatalog [exampleRecipe]).relations.get? "2" = some [1] ∧
    (mainIndex exampleCatalog [exampleRecipe]).relations.get? "3" = some [1] :=
  ⟨⟨by decide, by decide,
    C2_relations_contain_ids exampleCatalog [exampleRecipe] exampleRecipe 3 (by decide)
      (by decide)⟩, by decide, by decide, by decide⟩

/-- C3 on the code: `itemIndex` never has the key `"0"`, but `relations` keeps it
when a recipe references item id `0`; line 96 deletes the key from `itemIndex`
only. -/
theorem C3_relations_keep_sentinel :
    (∀ (items : GoMap Int Tdb.Item) (recipes : List Recipe),
      ¬ (mainIndex items recipes).itemIndex.HasKey "0") ∧
    (mainIndex exampleCatalog [sentinelRecipe]).relations.get? "0" = some [1] := by
  refine ⟨?_, by decide⟩
  intro items recipes
  simp [GoMap.HasKey, itemIndex_mainIndex]

/-- Keys and values of `itemIndex` after the indexer has run. -/
theorem itemIndex_keys_values (items : GoMap Int Tdb.Item) (recipes : List Recipe) :
    (∀ k : String, (mainIndex items recipes).itemIndex.HasKey k ↔
      ∃ i : Int, i ≠ 0 ∧
        (∃ r ∈ recipes, i = r.Product.Item ∨ ∃ g ∈ r.Ingredients, g.Item = i) ∧
        k = Itoa i) ∧
    (∀ i : Int, i ≠ 0 →
      (∃ r ∈ recipes, i = r.Product.Item ∨ ∃ g ∈ r.Ingredients, g.Item = i) →
      (mainIndex items recipes).itemIndex.get? (Itoa i) = some (items.index i)) := by
  constructor
  · intro k
    simp only [GoMap.HasKey, itemIndex_mainIndex]
    constructor
    · intro h
      by_cases h0 : k = "0"
      · simp [h0] at h
      · by_cases hk : k ∈ refKeys recipes
        · obtain ⟨r, hr, i, hi, rfl⟩ := mem_refKeys.1 hk
          refine ⟨i, ?_, ⟨r, hr, hi⟩, rfl⟩
          intro hz
          exact h0 ((Itoa_eq_zero_iff i).2 hz)
        · simp [h0, hk] at h
    · rintro ⟨i, hi0, ⟨r, hr, hi⟩, rfl⟩
      have h0 : ¬ Itoa i = "0" := fun e => hi0 ((Itoa_eq_zero_iff i).1 e)
      have hk : Itoa i ∈ refKeys recipes := mem_refKeys.2 ⟨r, hr, i, hi, rfl⟩
      simp [h0, hk]
  · rintro i hi0 ⟨r, hr, hi⟩
    have h0 : ¬ Itoa i = "0" := fun e => hi0 ((Itoa_eq_zero_iff i).1 e)
    have hk : Itoa i ∈ refKeys recipes := mem_refKeys.2 ⟨r, hr, i, hi, rfl⟩
    rw [itemIndex_mainIndex, if_neg h0, if_pos hk, unItoa_Itoa]

/-- C4: the keys of the `itemIndex` built by `main` are exactly the `Itoa i` for
the non-zero item ids `i` that are the product or an ingredient of some recipe, and
the value at `Itoa i` is the catalog lookup `items[i]`. -/
theorem C4_itemIndex_exact (items : GoMap Int Tdb.Item) (recipes : List Recipe) :
    (∀ k : String, (mainIndex items recipes).itemIndex.HasKey k ↔
      ∃ i : Int, i ≠ 0 ∧
        (∃ r ∈ recipes, i = r.Product.Item ∨ ∃ g ∈ r.Ingredients, g.Item = i) ∧
        k = Itoa i) ∧
    (∀ i : Int, i ≠ 0 →
      (∃ r ∈ recipes, i = r.Product.Item ∨ ∃ g ∈ r.Ingredients, g.Item = i) →
      (mainIndex items recipes).itemIndex.get? (Itoa i) = some (items.index i)) :=
  itemIndex_keys_values items recipes

/-- C4 on Scenario A: the keys of `itemIndex` are `"1"`, `"2"`, `"3"`, and Gel is
found under `"3"`. -/
theorem C4_itemIndex_exact_witness :
    (mainIndex exampleCatalog [exampleRecipe]).itemIndex.HasKey "2" ∧
    ¬ (mainIndex exampleCatalog [exampleRecipe]).itemIndex.HasKey "4" ∧
    ((3 : Int) ≠ 0 ∧
      (∃ r ∈ [exampleRecipe], (3 : Int) = r.Product.Item ∨ ∃ g ∈ r.Ingredients, g.Item = 3) ∧
      (mainIndex exampleCatalog [exampleRecipe]).itemIndex.get? (Itoa 3) =
        some (exampleCatalog.index 3)) :=
  ⟨by decide, by decide, by decide, by decide,
    (C4_itemIndex_exact exampleCatalog [exampleRecipe]).2 3 (by decide) (by decide)⟩

/-- C5 as stated fails: the product of `sentinelRecipe` is item `0`, whose key
line 96 deletes from `itemIndex`. -/
theorem C5_product_key_counterexample :
    sentinelRecipe ∈ [sentinelRecipe] ∧
    ¬ (mainIndex exampleCatalog [sentinelRecipe]).itemIndex.HasKey
        (Itoa sentinelRecipe.Product.Item) := by
  decide

/-- C5 amended: for every indexed recipe `r` whose product is not item `0`,
`Itoa r.Product.Item` is a key of `itemIndex`. -/
theorem C5_product_key_nonzero (items : GoMap Int Tdb.Item) (recipes : List Recipe)
    (r : Recipe) (hr : r ∈ recipes) (h0 : r.Product.Item ≠ 0) :
    (mainIndex items recipes).itemIndex.HasKey (Itoa r.Product.Item) :=
  ((itemIndex_keys_values items recipes).1 _).2 ⟨r.Product.Item, h0, ⟨r, hr, Or.inl rfl⟩, rfl⟩

/-- C5 amended, on Scenario A: the product Torch is a key of `itemIndex`. -/
theorem C5_product_key_nonzero_witness :
    exampleRecipe ∈ [exampleRecipe] ∧ exampleRecipe.Product.Item ≠ 0 ∧
    (mainIndex exampleCatalog [exampleRecipe]).itemIndex.HasKey
      (Itoa exampleRecipe.Product.Item) :=
  ⟨by decide, by decide,
    C5_product_key_nonzero exampleCatalog [exampleRecipe] exampleRecipe (by decide)
      (by decide)⟩

/-! ## Claims on the workstation directory parser -/

/-- C6: when the listing phase queues the groups `q` and the detail phase meets the
links `urls`, no more links than groups, the `k`-th link is parsed with the `k`-th
group: `listRecipes` returns the pages in link order, every recipe of the `k`-th
page carries the `k`-th group, and so does the returned list. -/
theorem C6_fifo_pairing (fetch : String → Option String) (items : GoMap String Int)
    (dir : String) (q : List (List Workstation)) (rest urls : List String)
    (pages : List (List Recipe))
    (hd : fetch "http://terraria.gamepedia.com/Recipes" = some dir)
    (hl : listingPhase fetch items (scanLines dir) ⟨[], true, []⟩ = .ok (⟨q, false, []⟩, rest))
    (hu : detailLinks rest = urls.map Except.ok)
    (hm : urls.length ≤ q.length)
    (hp : List.Forall₂ (fun (gu : List Workstation × String) (page : List Recipe) =>
      listWorkstationRecipes fetch items gu.1 gu.2 = .ok page) (q.zip urls) pages) :
    listRecipes fetch items = .ok (assignIds 0 pages.flatten) ∧
    (∀ (k : Nat) (g : List Workstation) (page : List Recipe),
      q[k]? = some g → pages[k]? = some page →
      (∃ u, urls[k]? = some u ∧ listWorkstationRecipes fetch items g u = .ok page) ∧
      ∀ r ∈ page, r.Workstations = g) ∧
    (assignIds 0 pages.flatten).map (fun r => r.Workstations) =
      ((q.zip pages).map (fun gp => List.replicate gp.2.length gp.1)).flatten := by
  refine ⟨(listRecipes_of_phases fetch items dir q rest urls pages hd hl hu hm hp).2, ?_, ?_⟩
  · intro k g page hq hpg
    obtain ⟨u, hu1, hu2⟩ := pages_getElem fetch items q urls pages hp k g page hq hpg
    exact ⟨⟨u, hu1, hu2⟩, listWorkstationRecipes_workstations hu2⟩
  · rw [assignIds_map_workstations]
    exact pages_workstations fetch items q urls pages hp

/-- C6 on a directory with the groups By Hand and Work Bench and two links: the
first record carries By Hand, the second Work Bench. -/
theorem C6_fifo_pairing_witness :
    listRecipes (wikiWith twoLinkDirectory) exampleIds =
      .ok (assignIds 0
        [[exampleRecord [⟨0, "By Hand"⟩]], [exampleRecord [⟨0, "Work Bench"⟩]]].flatten) ∧
    (assignIds 0
        [[exampleRecord [⟨0, "By Hand"⟩]], [exampleRecord [⟨0, "Work Bench"⟩]]].flatten).map
      (fun r => r.Workstations) = [[⟨0, "By Hand"⟩], [⟨0, "Work Bench"⟩]] :=
  have h := C6_fifo_pairing (wikiWith twoLinkDirectory) exampleIds twoLinkDirectory
    [[⟨0, "By Hand"⟩], [⟨0, "Work Bench"⟩]]
    ["<a href=\"/Recipes/By_Hand\">By Hand</a>", "<a href=\"/Recipes/By_Hand\">Work Bench</a>"]
    ["/Recipes/By_Hand", "/Recipes/By_Hand"]
    [[exampleRecord [⟨0, "By Hand"⟩]], [exampleRecord [⟨0, "Work Bench"⟩]]]
    (by decide!) (by decide!) (by decide!) (by decide)
    (List.Forall₂.cons (by decide!) (List.Forall₂.cons (by decide!) List.Forall₂.nil))
  ⟨h.1, h.2.2.trans (by decide)⟩

/-- C7: when the detail phase meets more sub-page links than groups were queued,
`listRecipes` fails instead of returning a recipe list; on a link line met with an
empty queue the loop body panics with an index out of range (line 183 or line
184) and parses no page. -/
theorem C7_more_links_than_groups (fetch : String → Option String)
    (items : GoMap String Int) (dir : String) (q : List (List Workstation))
    (rest : List String)
    (hd : fetch "http://terraria.gamepedia.com/Recipes" = some dir)
    (hl : listingPhase fetch items (scanLines dir) ⟨[], true, []⟩ = .ok (⟨q, false, []⟩, rest))
    (hm : q.length < (detailLinks rest).length) :
    (∃ e, listRecipes fetch items = .error e) ∧
    (∀ (line : String) (acc : List Recipe), Contains line "<a href=\"/Recipes/" = true →
      listRecipesStep fetch items ⟨[], false, acc⟩ line = .error GoPanic.indexOutOfRange) := by
  constructor
  · obtain ⟨e, he⟩ := listRecipesLoop_detail_fails fetch items rest q [] hm
    refine ⟨e, ?_⟩
    unfold listRecipes
    rw [hd]
    simp only [listRecipesLoop_listing fetch items _ _ _ _ hl, he]
  · intro line acc hc
    unfold listRecipesStep
    simp only [Bool.false_eq_true, if_false, hc, Bool.not_true]
    unfold submatch1
    cases linkRe.FindStringSubmatch line <;> rfl

/-- C7 on a directory with one group and two links: the run fails. -/
theorem C7_more_links_than_groups_witness :
    (∃ e, listRecipes (wikiWith surplusLinkDirectory) exampleIds = .error e) ∧
    listRecipes (wikiWith surplusLinkDirectory) exampleIds =
      .error GoPanic.indexOutOfRange :=
  ⟨(C7_more_links_than_groups (wikiWith surplusLinkDirectory) exampleIds surplusLinkDirectory
    [[⟨0, "By Hand"⟩]]
    ["<a href=\"/Recipes/By_Hand\">By Hand</a>", "<a href=\"/Recipes/By_Hand\">Again</a>"]
    (by decide!) (by decide!) (by decide!)).1, by decide!⟩

/-- C8 as stated fails: with two groups queued and one link found (Scenario C),
`listRecipes` returns the recipe of the link and reports no error. -/
theorem C8_fewer_links_counterexample :
    listingPhase (wikiWith surplusGroupDirectory) exampleIds
        (scanLines surplusGroupDirectory) ⟨[], true, []⟩ =
      .ok (⟨[[⟨0, "By Hand"⟩], [⟨0, "Work Bench"⟩]], false, []⟩,
        ["<a href=\"/Recipes/By_Hand\">By Hand</a>"]) ∧
    (detailLinks ["<a href=\"/Recipes/By_Hand\">By Hand</a>"]).length = 1 ∧
    listRecipes (wikiWith surplusGroupDirectory) exampleIds = .ok [exampleRecipe] ∧
    ¬ ∃ e, listRecipes (wikiWith surplusGroupDirectory) exampleIds = .error e := by
  refine ⟨by decide!, by decide!, by decide!, ?_⟩
  rintro ⟨e, he⟩
  have h : listRecipes (wikiWith surplusGroupDirectory) exampleIds = .ok [exampleRecipe] := by
    decide!
  rw [h] at he
  cases he

/-- C8 amended: when the detail phase finds fewer links than groups were queued and
every sub-page is parsed, `listRecipes` returns the pages of the links, paired with
the first groups; the surplus groups are left in the queue and no error is
reported. -/
theorem C8_surplus_groups_dropped (fetch : String → Option String)
    (items : GoMap String Int) (dir : String) (q : List (List Workstation))
    (rest urls : List String) (pages : List (List Recipe))
    (hd : fetch "http://terraria.gamepedia.com/Recipes" = some dir)
    (hl : listingPhase fetch items (scanLines dir) ⟨[], true, []⟩ = .ok (⟨q, false, []⟩, rest))
    (hu : detailLinks rest = urls.map Except.ok)
    (hm : urls.length < q.length)
    (hp : List.Forall₂ (fun (gu : List Workstation × String) (page : List Recipe) =>
      listWorkstationRecipes fetch items gu.1 gu.2 = .ok page) (q.zip urls) pages) :
    listRecipes fetch items = .ok (assignIds 0 pages.flatten) ∧
    listRecipesLoop fetch items (scanLines dir) ⟨[], true, []⟩ =
      .ok ⟨q.drop urls.length, false, pages.flatten⟩ ∧
    q.drop urls.length ≠ [] := by
  have h := listRecipes_of_phases fetch items dir q rest urls pages hd hl hu
    (Nat.le_of_lt hm) hp
  refine ⟨h.2, h.1, ?_⟩
  intro hnil
  have := congrArg List.length hnil
  simp only [List.length_drop, List.length_nil] at this
  omega

/-- C8 amended, on Scenario C: the run returns the recipe of the one link and the
group Work Bench is left over. -/
theorem C8_surplus_groups_dropped_witness :
    listRecipes (wikiWith surplusGroupDirectory) exampleIds =
      .ok (assignIds 0 [[exampleRecord [⟨0, "By Hand"⟩]]].flatten) ∧
    listRecipesLoop (wikiWith surplusGroupDirectory) exampleIds
        (scanLines surplusGroupDirectory) ⟨[], true, []⟩ =
      .ok ⟨([[⟨0, "By Hand"⟩], [⟨0, "Work Bench"⟩]] : List (List Workstation)).drop
        ["/Recipes/By_Hand"].length, false, [[exampleRecord [⟨0, "By Hand"⟩]]].flatten⟩ ∧
    ([[⟨0, "By Hand"⟩], [⟨0, "Work Bench"⟩]] : List (List Workstation)).drop
        ["/Recipes/By_Hand"].length ≠ [] :=
  C8_surplus_groups_dropped (wikiWith surplusGroupDirectory) exampleIds surplusGroupDirectory
    [[⟨0, "By Hand"⟩], [⟨0, "Work Bench"⟩]]
    ["<a href=\"/Recipes/By_Hand\">By Hand</a>"] ["/Recipes/By_Hand"]
    [[exampleRecord [⟨0, "By Hand"⟩]]]
    (by decide!) (by decide!) (by decide!) (by decide)
    (List.Forall₂.cons (by decide!) List.Forall₂.nil)

/-- C9 on the code: a table-of-contents line appends one group per label, not one
per line; on a line with the labels Iron Anvil and Lead Anvil the queue grows by
the two groups `[Iron Anvil]` and `[Iron Anvil, Lead Anvil]`. -/
theorem C9_one_group_per_label :
    (∀ (items : GoMap String Int) (q : List (List Workstation)) (line : String),
      (parseListingLine items q line).length =
        q.length + (labelRe.FindAllStringSubmatch line).length) ∧
    Contains twoLabelLine "<li class=\"toclevel-1 tocsection-" = true ∧
    labelRe.FindAllStringSubmatch twoLabelLine = ["Iron Anvil", "Lead Anvil"] ∧
    listRecipesStep exampleFetch exampleIds ⟨[], true, []⟩ twoLabelLine =
      .ok ⟨[[⟨0, "Iron Anvil"⟩], [⟨0, "Iron Anvil"⟩, ⟨0, "Lead Anvil"⟩]], true, []⟩ := by
  refine ⟨?_, by decide!, by decide!, by decide!⟩
  intro items q line
  rw [parseListingLine_eq]
  simp [prefixes_length]

/-- C10: for the `j`-th label of a table-of-contents line, with `n` the label after
`TrimSpace`, the workstation at position `j` of every group appended from that
label on is `{Item: items[n], Other: ""}` when `n` is a key of the name table, and
`{Item: 0, Other: n}` otherwise. -/
theorem C10_label_resolution (items : GoMap String Int) (q : List (List Workstation))
    (line : String) (labels : List String) (j k : Nat) (label : String)
    (hl : labelRe.FindAllStringSubmatch line = labels)
    (hjk : j ≤ k) (hk : k < labels.length) (hj : labels[j]? = some label) :
    ∃ group w, (parseListingLine items q line)[q.length + k]? = some group ∧
      group[j]? = some w ∧
      (∀ id, items.get? (TrimSpace label) = some id → w = ⟨id, ""⟩) ∧
      (items.get? (TrimSpace label) = none → w = ⟨0, TrimSpace label⟩) := by
  refine ⟨(labels.take (k + 1)).map (labelWorkstation items), labelWorkstation items label,
    ?_, ?_, ?_, ?_⟩
  · rw [parseListingLine_eq, hl, List.getElem?_append_right (by omega)]
    simp only [Nat.add_sub_cancel_left, List.getElem?_map, prefixes_getElem? labels k hk,
      Option.map_some']
  · rw [List.getElem?_map, List.getElem?_take_of_lt (by omega), hj]
    rfl
  · intro id hid
    simp only [labelWorkstation, hid]
  · intro hnone
    simp only [labelWorkstation, hnone]

/-- C10 on the line with the labels Iron Anvil and Lead Anvil and a name table that
knows Iron Anvil only. -/
theorem C10_label_resolution_witness :
    ∃ group w,
      (parseListingLine (⟨[("Iron Anvil", 35)]⟩ : GoMap String Int) [] twoLabelLine)[0 + 1]? =
        some group ∧
      group[0]? = some w ∧
      (∀ id, (⟨[("Iron Anvil", 35)]⟩ : GoMap String Int).get? (TrimSpace "Iron Anvil") =
        some id → w = ⟨id, ""⟩) ∧
      ((⟨[("Iron Anvil", 35)]⟩ : GoMap String Int).get? (TrimSpace "Iron Anvil") = none →
        w = ⟨0, TrimSpace "Iron Anvil"⟩) :=
  C10_label_resolution ⟨[("Iron Anvil", 35)]⟩ [] twoLabelLine ["Iron Anvil", "Lead Anvil"] 0 1
    "Iron Anvil" (by decide!) (by decide) (by decide) (by decide)

/-! ## Invariants of the directory loop -/

theorem prefixes_mem {α : Type} : ∀ (l : List α) (pre : List α), pre ∈ prefixes l →
    pre ≠ [] ∧ ∀ x ∈ pre, x ∈ l := by
  intro l
  induction l with
  | nil => intro pre h; simp [prefixes] at h
  | cons a l ih =>
    intro pre h
    simp only [prefixes, List.mem_cons, List.mem_map] at h
    rcases h with rfl | ⟨p, hp, rfl⟩
    · simp
    · refine ⟨by simp, ?_⟩
      intro x hx
      rcases List.mem_cons.1 hx with rfl | hx
      · simp
      · exact List.mem_cons_of_mem _ ((ih p hp).2 x hx)

theorem parseListingLine_drop (items : GoMap String Int) (q : List (List Workstation))
    (line : String) :
    (parseListingLine items q line).drop q.length =
      (prefixes (labelRe.FindAllStringSubmatch line)).map
        (fun pre => pre.map (labelWorkstation items)) := by
  rw [parseListingLine_eq, List.drop_left]

theorem listRecipesStep_invariant (fetch : String → Option String) (items : GoMap String Int)
    (P : List Workstation → Prop)
    (hP : ∀ (line : String) (pre : List String),
      pre ∈ prefixes (labelRe.FindAllStringSubmatch line) →
      P (pre.map (labelWorkstation items)))
    (st st1 : DirState) (line : String)
    (hq : ∀ g ∈ st.workstations, P g) (hr : ∀ r ∈ st.recipes, P r.Workstations)
    (h : listRecipesStep fetch items st line = .ok st1) :
    (∀ g ∈ st1.workstations, P g) ∧ (∀ r ∈ st1.recipes, P r.Workstations) := by
  unfold listRecipesStep at h
  split at h
  · split at h
    · split at h
      · injection h with h; subst h; exact ⟨hq, hr⟩
      · injection h with h; subst h; exact ⟨hq, hr⟩
    · injection h with h
      subst h
      refine ⟨?_, hr⟩
      intro g hg
      simp only [parseListingLine_eq, List.mem_append, List.mem_map] at hg
      rcases hg with hg | ⟨pre, hpre, rfl⟩
      · exact hq g hg
      · exact hP line pre hpre
  · split at h
    · injection h with h; subst h; exact ⟨hq, hr⟩
    · split at h
      · cases h
      · split at h
        · cases h
        · rename_i g gs hst
          split at h
          · cases h
          · rename_i rs hrs
            injection h with h
            subst h
            have hg : P g := hq g (by rw [hst]; simp)
            refine ⟨?_, ?_⟩
            · intro g' hg'
              exact hq g' (by rw [hst]; exact List.mem_cons_of_mem _ hg')
            · intro r hr'
              rcases List.mem_append.1 hr' with hr' | hr'
              · exact hr r hr'
              · rw [listWorkstationRecipes_workstations hrs r hr']; exact hg

theorem listRecipesLoop_invariant (fetch : String → Option String) (items : GoMap String Int)
    (P : List Workstation → Prop)
    (hP : ∀ (line : String) (pre : List String),
      pre ∈ prefixes (labelRe.FindAllStringSubmatch line) →
      P (pre.map (labelWorkstation items))) :
    ∀ (lines : List String) (st st1 : DirState),
    (∀ g ∈ st.workstations, P g) → (∀ r ∈ st.recipes, P r.Workstations) →
    listRecipesLoop fetch items lines st = .ok st1 →
    (∀ g ∈ st1.workstations, P g) ∧ (∀ r ∈ st1.recipes, P r.Workstations) := by
  intro lines
  induction lines with
  | nil =>
    intro st st1 hq hr h
    simp only [listRecipesLoop, Except.ok.injEq] at h
    subst h; exact ⟨hq, hr⟩
  | cons line ls ih =>
    intro st st1 hq hr h
    rw [listRecipesLoop] at h
    split at h
    · cases h
    · rename_i st2 hst
      obtain ⟨hq2, hr2⟩ := listRecipesStep_invariant fetch items P hP st st2 line hq hr hst
      exact ih st2 st1 hq2 hr2 h

theorem listRecipes_invariant (fetch : String → Option String) (items : GoMap String Int)
    (P : List Workstation → Prop)
    (hP : ∀ (line : String) (pre : List String),
      pre ∈ prefixes (labelRe.FindAllStringSubmatch line) →
      P (pre.map (labelWorkstation items)))
    (rs : List Recipe) (h : listRecipes fetch items = .ok rs) :
    ∀ r ∈ rs, P r.Workstations := by
  unfold listRecipes at h
  split at h
  · cases h
  · split at h
    · cases h
    · rename_i st hst
      injection h with h
      subst h
      have hinv := (listRecipesLoop_invariant fetch items P hP _ _ st (by simp) (by simp) hst).2
      intro r hr
      have hm : r.Workstations ∈ (assignIds 0 st.recipes).map (fun r => r.Workstations) :=
        List.mem_map_of_mem _ hr
      rw [assignIds_map_workstations] at hm
      obtain ⟨r0, hr0, he⟩ := List.mem_map.1 hm
      rw [← he]
      exact hinv r0 hr0

theorem labelWorkstation_cases (items : GoMap String Int) (label : String) :
    (∃ id, items.get? (TrimSpace label) = some id ∧
      labelWorkstation items label = ⟨id, ""⟩) ∨
    (items.get? (TrimSpace label) = none ∧
      labelWorkstation items label = ⟨0, TrimSpace label⟩) := by
  unfold labelWorkstation
  cases h : items.get? (TrimSpace label) with
  | none => exact Or.inr ⟨rfl, rfl⟩
  | some id => exact Or.inl ⟨id, rfl, rfl⟩

/-! ## The records of a sub-page and their lines -/

theorem Scan_suffix (c : Scanner) : c.Scan.2.rest <:+ c.rest := by
  unfold Scanner.Scan
  cases c.rest with
  | nil => exact List.suffix_refl _
  | cons l ls => exact List.suffix_cons l ls

theorem scan_suffix (c : Scanner) : (scan c).rest <:+ c.rest := by
  unfold scan
  dsimp only
  split
  · exact (Scan_suffix _).trans (Scan_suffix _)
  · exact Scan_suffix _

theorem submatch1_titleRe_empty : submatch1 titleRe "" = .error GoPanic.indexOutOfRange := by
  decide

theorem scan_decomp (c : Scanner) (t : String)
    (h : submatch1 titleRe (scan c).text = .ok t) :
    ∃ pre, c.rest = pre ++ (scan c).text :: (scan c).rest := by
  unfold scan Scanner.Scan at h ⊢
  cases hc : c.rest with
  | nil =>
    rw [hc] at h
    dsimp only at h
    split at h <;> (rw [submatch1_titleRe_empty] at h; cases h)
  | cons l ls =>
    rw [hc] at h
    dsimp only at h ⊢
    split
    · rename_i hl
      rw [if_pos hl] at h
      cases ls with
      | nil =>
        dsimp only at h
        rw [submatch1_titleRe_empty] at h; cases h
      | cons l2 r => exact ⟨[l], rfl⟩
    · exact ⟨[], rfl⟩

theorem scan_cursor_suffix (c : Scanner) (t : String)
    (h : submatch1 titleRe (scan c).text = .ok t) :
    (scan c).text :: (scan c).rest <:+ c.rest := by
  obtain ⟨pre, hpre⟩ := scan_decomp c t h
  exact ⟨pre, hpre.symm⟩

theorem ingredientsLoop_trace (items : GoMap String Int) : ∀ (n : Nat) (b : Scanner)
    (acc : List Ingredient) (b2 : Scanner) (out : List Ingredient),
    ingredientsLoop items n b acc = .ok (b2, out) →
    ∃ ings ils, out = acc ++ ings ∧ ils.length = n ∧
      List.Forall₂ (IngredientOf items) ings ils ∧
      (∀ il ∈ ils, il ∈ b.rest) ∧ b2.rest <:+ b.rest ∧
      b2.rest.length + n ≤ b.rest.length ∧
      b2.text :: b2.rest <:+ b.text :: b.rest := by
  intro n
  induction n with
  | zero =>
    intro b acc b2 out h
    simp only [ingredientsLoop, Except.ok.injEq, Prod.mk.injEq] at h
    obtain ⟨h1, h2⟩ := h
    subst h1; subst h2
    exact ⟨[], [], by simp, rfl, List.Forall₂.nil, by simp, List.suffix_refl _, by simp,
      List.suffix_refl _⟩
  | succ n ih =>
    intro b acc b2 out h
    rw [ingredientsLoop] at h
    split at h
    · cases h
    · rename_i t ht
      obtain ⟨ings, ils, hout, hlen, hf, hmem, hsuf, hle, hcur⟩ := ih _ _ _ _ h
      obtain ⟨pre, hpre⟩ := scan_decomp (scan b) t ht
      have hs1 : (scan b).rest <:+ b.rest := scan_suffix b
      have hs2 : (scan (scan b)).rest <:+ (scan b).rest := scan_suffix _
      have htm : (scan (scan b)).text ∈ b.rest := by
        apply hs1.subset
        rw [hpre]; simp
      refine ⟨⟨items.index (TrimSpace t), parseCount (scan (scan b)).text⟩ :: ings,
        (scan (scan b)).text :: ils, ?_, by simp [hlen], ?_, ?_, ?_, ?_, ?_⟩
      · rw [hout]; simp
      · exact List.Forall₂.cons ⟨t, ht, rfl⟩ hf
      · intro il hil
        rcases List.mem_cons.1 hil with rfl | hil
        · exact htm
        · exact hs1.subset (hs2.subset (hmem il hil))
      · exact hsuf.trans (hs2.trans hs1)
      · have h1 := hs1.length_le
        have h2 := congrArg List.length hpre
        simp only [List.length_append, List.length_cons] at h2
        omega
      · exact hcur.trans (((scan_cursor_suffix (scan b) t ht).trans hs1).trans
          (List.suffix_cons _ _))

/-- The records the loop appends, each with its row-start line, its product line and
its ingredient lines; the row-start lines and the product lines are met in page
order. -/
theorem recipesLoop_trace (items : GoMap String Int) (g : List Workstation) :
    ∀ (fuel : Nat) (b : Scanner) (acc res : List Recipe),
    recipesLoop items g fuel b acc = some (.ok res) →
    ∃ (recs : List Recipe) (trace : List (String × String × List String)),
      res = acc ++ recs ∧
      List.Forall₂ (fun r tr =>
        Contains tr.1 "style=\"text-align:center;width:1%\">" = true ∧
        RecordOf items g r tr.2) recs trace ∧
      (trace.map (fun tr => tr.1)).Sublist (b.text :: b.rest) ∧
      (trace.map (fun tr => tr.2.1)).Sublist b.rest ∧
      (∀ tr ∈ trace, (∀ il ∈ tr.2.2, il ∈ b.rest) ∧ tr.2.2.length ≤ b.rest.length) := by
  intro fuel
  induction fuel with
  | zero => intro b acc res h; simp [recipesLoop] at h
  | succ fuel ih =>
    intro b acc res h
    rw [recipesLoop] at h
    split at h
    · split at h
      · rename_i b1 hb
        obtain ⟨recs, trace, hres, hf, hmark, hsub, hmem⟩ := ih _ _ _ h
        have hsuf : b1.rest <:+ b.rest := by
          have := Scan_suffix b
          rw [hb] at this
          exact this
        have hcur : b1.text :: b1.rest = b.rest := by
          unfold Scanner.Scan at hb
          cases hr : b.rest with
          | nil => rw [hr] at hb; simp at hb
          | cons l ls =>
            rw [hr] at hb
            simp only [Prod.mk.injEq, true_and] at hb
            rw [← hb]
        refine ⟨recs, trace, hres, hf, ?_, hsub.trans hsuf.sublist, ?_⟩
        · rw [hcur] at hmark
          exact List.Sublist.cons _ hmark
        · intro tr htr
          exact ⟨fun il hil => hsuf.subset ((hmem tr htr).1 il hil),
            Nat.le_trans (hmem tr htr).2 hsuf.length_le⟩
      · simp only [Option.some.injEq, Except.ok.injEq] at h
        subst h
        exact ⟨[], [], by simp, List.Forall₂.nil, by simp, by simp, by simp⟩
    · rename_i hmk
      dsimp only at h
      split at h
      · simp at h
      · rename_i t ht
        split at h
        · simp at h
        · rename_i rs hrs
          split at h
          · simp at h
          · rename_i b2 ings hi
            obtain ⟨recs, trace, hres, hf, hmark, hsub, hmem⟩ := ih _ _ _ h
            obtain ⟨ings1, ils, hings, hlen, hfi, himem, hisuf, hile, hicur⟩ :=
              ingredientsLoop_trace items _ _ _ _ _ hi
            obtain ⟨pre, hpre⟩ := scan_decomp b t ht
            have hs1 : (scan b).rest <:+ b.rest := scan_suffix b
            have hc1 := scan_cursor_suffix b t ht
            simp only [List.nil_append] at hings
            subst hings
            refine ⟨(⟨0, g, ings, ⟨items.index (TrimSpace t), parseCount (scan b).text⟩⟩ :
              Recipe) :: recs, (b.text, (scan b).text, ils) :: trace, ?_, ?_, ?_, ?_, ?_⟩
            · rw [hres]; simp
            · refine List.Forall₂.cons ⟨?_, rfl, rfl, ⟨t, ht, rfl⟩, ⟨rs, hrs, hlen⟩, hfi⟩ hf
              simpa using hmk
            · rw [List.map_cons]
              exact List.Sublist.cons₂ _ (hmark.trans (hicur.trans hc1).sublist)
            · rw [hpre, List.map_cons]
              apply List.Sublist.trans _ (List.sublist_append_right pre _)
              exact List.Sublist.cons₂ _ (hsub.trans hisuf.sublist)
            · intro tr htr
              rcases List.mem_cons.1 htr with rfl | htr
              · refine ⟨fun il hil => hs1.subset (himem il hil), ?_⟩
                have := hs1.length_le
                simp only
                omega
              · refine ⟨fun il hil => hs1.subset (hisuf.subset ((hmem tr htr).1 il hil)), ?_⟩
                have h1 := hs1.length_le
                have h2 := hisuf.length_le
                have h3 := (hmem tr htr).2
                omega

theorem sublist_of_cons_not_mem {α : Type} {a : α} {l m : List α}
    (h : l.Sublist (a :: m)) (ha : a ∉ l) : l.Sublist m := by
  cases h with
  | cons _ h => exact h
  | cons₂ _ h => exact absurd (List.mem_cons_self _ _) ha

/-- The records of a parsed sub-page, each with its row-start line, its product line
and its ingredient lines. -/
theorem listWorkstationRecipes_trace {fetch : String → Option String}
    {items : GoMap String Int} {g : List Workstation} {url : String} {page : List Recipe}
    (h : listWorkstationRecipes fetch items g url = .ok page) :
    ∃ (raw : String) (trace : List (String × String × List String)),
      fetch ("http://terraria.gamepedia.com" ++ url) = some raw ∧
      List.Forall₂ (fun r tr =>
        Contains tr.1 "style=\"text-align:center;width:1%\">" = true ∧
        RecordOf items g r tr.2) page trace ∧
      (trace.map (fun tr => tr.1)).Sublist
        (scanLines (Replace raw "</tr><tr>" "</tr>\n<tr>")) ∧
      (trace.map (fun tr => tr.2.1)).Sublist
        (scanLines (Replace raw "</tr><tr>" "</tr>\n<tr>")) ∧
      (∀ tr ∈ trace,
        (∀ il ∈ tr.2.2, il ∈ scanLines (Replace raw "</tr><tr>" "</tr>\n<tr>")) ∧
        tr.2.2.length ≤ (scanLines (Replace raw "</tr><tr>" "</tr>\n<tr>")).length) := by
  cases hf : fetch ("http://terraria.gamepedia.com" ++ url) with
  | none =>
    unfold listWorkstationRecipes at h
    rw [hf] at h
    cases h
  | some raw =>
    have hl := listWorkstationRecipes_eq_loop fetch items g url raw hf
    rw [h] at hl
    obtain ⟨recs, trace, hres, hfa, hmark, hsub, hmem⟩ := recipesLoop_trace items g _ _ _ _ hl
    simp only [List.nil_append] at hres
    subst hres
    refine ⟨raw, trace, rfl, hfa, ?_, hsub, hmem⟩
    apply sublist_of_cons_not_mem hmark
    intro hin
    obtain ⟨tr, htr, he⟩ := List.mem_map.1 hin
    have hc : ∀ (rs : List Recipe) (tc : List (String × String × List String)),
        List.Forall₂ (fun r tr =>
          Contains tr.1 "style=\"text-align:center;width:1%\">" = true ∧
          RecordOf items g r tr.2) rs tc →
        ∀ x ∈ tc, Contains x.1 "style=\"text-align:center;width:1%\">" = true := by
      intro rs tc hft
      induction hft with
      | nil => intro x hx; cases hx
      | cons hd _ ih =>
        intro x hx
        rcases List.mem_cons.1 hx with rfl | hx
        · exact hd.1
        · exact ih x hx
    have hm := hc _ _ hfa tr htr
    rw [he] at hm
    have hn : Contains "" "style=\"text-align:center;width:1%\">" = false := by decide
    simp only [hn] at hm
    cases hm

/-! ## Numbers read by `Atoi` from the captures of the expressions -/

theorem isDigit_not_space (c : Char) (h : c.isDigit = true) : isSpace c = false := by
  simp only [Char.isDigit, Bool.and_eq_true, decide_eq_true_eq] at h
  have h1 : 48 ≤ c.toNat := by
    have := h.1
    simpa [Char.toNat, UInt32.le_def, Fin.le_def] using this
  have h2 : c.toNat ≤ 57 := by
    have := h.2
    simpa [Char.toNat, UInt32.le_def, Fin.le_def] using this
  unfold isSpace
  simp only [Bool.or_eq_false_iff, Bool.and_eq_false_iff, decide_eq_false_iff_not]
  omega

theorem dropWhile_of_all_false {α : Type} (p : α → Bool) :
    ∀ (l : List α), (∀ x ∈ l, p x = false) → l.dropWhile p = l := by
  intro l h
  cases l with
  | nil => rfl
  | cons a l =>
    have := h a (by simp)
    simp [List.dropWhile_cons, this]

theorem trimChars_of_no_space (cs : List Char) (h : ∀ c ∈ cs, isSpace c = false) :
    trimChars cs = cs := by
  unfold trimChars
  rw [dropWhile_of_all_false _ cs h,
    dropWhile_of_all_false _ cs.reverse (fun c hc => h c (List.mem_reverse.1 hc)),
    List.reverse_reverse]

theorem Atoi_digits (ds : List Char) (hne : ds ≠ []) (hd : ∀ c ∈ ds, c.isDigit = true) :
    Atoi (String.mk ds) = min (digitsValue 0 ds : Int) (2 ^ 63 - 1) := by
  have hall : ds.all Char.isDigit = true := List.all_eq_true.2 hd
  have hemp : ds.isEmpty = false := by
    cases ds with
    | nil => exact absurd rfl hne
    | cons c cs => rfl
  unfold Atoi
  dsimp only
  split
  · have h1 : ('-' : Char).isDigit = true := hd _ (by simp)
    have h2 : ('-' : Char).isDigit = false := by decide
    rw [h2] at h1
    cases h1
  · have h1 : ('+' : Char).isDigit = true := hd _ (by simp)
    have h2 : ('+' : Char).isDigit = false := by decide
    rw [h2] at h1
    cases h1
  · simp [hall, hemp]

theorem find_capture (p : Pattern) : ∀ (s cap rest : List Char),
    p.find s = some (cap, rest) → cap ≠ [] ∧ ∀ c ∈ cap, p.cls c = true := by
  have hm : ∀ (s cap rest : List Char), p.matchAt s = some (cap, rest) →
      cap ≠ [] ∧ ∀ c ∈ cap, p.cls c = true := by
    intro s cap rest h
    unfold Pattern.matchAt at h
    split at h
    · dsimp only at h
      split at h
      · rename_i hrun
        simp only [Option.some.injEq, Prod.mk.injEq] at h
        simp only [Bool.and_eq_true, Bool.not_eq_true', List.isEmpty_eq_false] at hrun
        rw [← h.1]
        exact ⟨hrun.1, fun c hc => (List.mem_takeWhile_imp hc)⟩
      · cases h
    · cases h
  intro s
  induction s with
  | nil => intro cap rest h; exact hm _ _ _ h
  | cons c cs ih =>
    intro cap rest h
    rw [Pattern.find] at h
    split at h
    · rename_i r hr
      simp only [Option.some.injEq] at h
      rw [h] at hr
      exact hm _ _ _ hr
    · exact ih cap rest h

theorem FindStringSubmatch_capture (p : Pattern) (line m : String)
    (h : p.FindStringSubmatch line = some m) :
    m.data ≠ [] ∧ ∀ c ∈ m.data, p.cls c = true := by
  unfold Pattern.FindStringSubmatch at h
  cases hf : p.find line.data with
  | none => rw [hf] at h; cases h
  | some r =>
    rw [hf] at h
    simp only [Option.map_some', Option.some.injEq] at h
    rw [← h]
    exact find_capture p _ r.1 r.2 hf

theorem submatch1_capture (p : Pattern) (line m : String) (h : submatch1 p line = .ok m) :
    m.data ≠ [] ∧ ∀ c ∈ m.data, p.cls c = true := by
  unfold submatch1 at h
  split at h
  · rename_i cap hc
    injection h with h
    rw [← h]
    exact FindStringSubmatch_capture p line cap hc
  · cases h

/-- The count of a line: `1` without a parenthesized number, else its value, capped. -/
theorem parseCount_cases (line : String) :
    (countRe.FindStringSubmatch line = none ∧ parseCount line = 1) ∨
    (∃ m, countRe.FindStringSubmatch line = some m ∧
      parseCount line = min (digitsValue 0 m.data : Int) (2 ^ 63 - 1)) := by
  unfold parseCount
  cases h : countRe.FindStringSubmatch line with
  | none => exact Or.inl ⟨rfl, rfl⟩
  | some m =>
    refine Or.inr ⟨m, rfl, ?_⟩
    obtain ⟨hne, hd⟩ := FindStringSubmatch_capture countRe line m h
    exact Atoi_digits m.data hne hd

/-- The row count read from a `rowspan` attribute. -/
theorem Atoi_rowspan (line rs : String) (h : submatch1 rowspanRe line = .ok rs) :
    Atoi (TrimSpace rs) = min (digitsValue 0 rs.data : Int) (2 ^ 63 - 1) := by
  obtain ⟨hne, hd⟩ := submatch1_capture rowspanRe line rs h
  have ht : TrimSpace rs = rs := by
    unfold TrimSpace
    rw [trimChars_of_no_space rs.data (fun c hc => isDigit_not_space c (hd c hc))]
  rw [ht]
  exact Atoi_digits rs.data hne hd

/-! ## Claims on the workstations of the directory -/

/-- C11 as stated fails: a table-of-contents line whose label is a blank gives the
workstation `{Item: 0, Other: ""}`, with neither field populated. -/
theorem C11_exactly_one_counterexample :
    ∃ g ∈ (parseListingLine exampleIds [] blankLabelLine).drop ([] : List (List Workstation)).length,
      ∃ w ∈ g, ¬ ((w.Item ≠ 0 ∧ w.Other = "") ∨ (w.Item = 0 ∧ w.Other ≠ "")) :=
  ⟨[⟨0, ""⟩], by decide!, ⟨0, ""⟩, by decide, by decide⟩

/-- C11 amended: every workstation of a group appended for a table-of-contents line
has at most one field populated (`Item = 0` or `Other = ""`), and exactly one unless
its label is empty after `TrimSpace` or the name table maps it to the id `0`. -/
theorem C11_at_most_one_populated (items : GoMap String Int) (q : List (List Workstation))
    (line : String) (g : List Workstation) (w : Workstation)
    (hg : g ∈ (parseListingLine items q line).drop q.length) (hw : w ∈ g) :
    (w.Item = 0 ∨ w.Other = "") ∧
    ∃ label ∈ labelRe.FindAllStringSubmatch line,
      (w.Item ≠ 0 ∧ w.Other = "") ∨ (w.Item = 0 ∧ w.Other ≠ "") ∨
      (w = ⟨0, ""⟩ ∧
        (TrimSpace label = "" ∨ items.get? (TrimSpace label) = some 0)) := by
  rw [parseListingLine_drop] at hg
  obtain ⟨pre, hpre, rfl⟩ := List.mem_map.1 hg
  obtain ⟨label, hl, rfl⟩ := List.mem_map.1 hw
  have hmem := (prefixes_mem _ pre hpre).2 label hl
  rcases labelWorkstation_cases items label with ⟨id, hid, he⟩ | ⟨hn, he⟩
  · rw [he]
    refine ⟨Or.inr rfl, label, hmem, ?_⟩
    by_cases h0 : id = 0
    · subst h0
      exact Or.inr (Or.inr ⟨rfl, Or.inr hid⟩)
    · exact Or.inl ⟨h0, rfl⟩
  · rw [he]
    refine ⟨Or.inl rfl, label, hmem, ?_⟩
    by_cases h0 : TrimSpace label = ""
    · rw [h0]
      exact Or.inr (Or.inr ⟨rfl, Or.inl rfl⟩)
    · exact Or.inr (Or.inl ⟨rfl, h0⟩)

/-- C11 amended, on the line with the labels Iron Anvil and Lead Anvil and a name
table that knows Iron Anvil only. -/
theorem C11_at_most_one_populated_witness :
    ([⟨35, ""⟩, ⟨0, "Lead Anvil"⟩] : List Workstation) ∈
      (parseListingLine (⟨[("Iron Anvil", 35)]⟩ : GoMap String Int) [] twoLabelLine).drop
        ([] : List (List Workstation)).length ∧
    (⟨0, "Lead Anvil"⟩ : Workstation) ∈ ([⟨35, ""⟩, ⟨0, "Lead Anvil"⟩] : List Workstation) ∧
    (((⟨0, "Lead Anvil"⟩ : Workstation).Item = 0 ∨ (⟨0, "Lead Anvil"⟩ : Workstation).Other = "") ∧
    ∃ label ∈ labelRe.FindAllStringSubmatch twoLabelLine,
      ((⟨0, "Lead Anvil"⟩ : Workstation).Item ≠ 0 ∧
        (⟨0, "Lead Anvil"⟩ : Workstation).Other = "") ∨
      ((⟨0, "Lead Anvil"⟩ : Workstation).Item = 0 ∧
        (⟨0, "Lead Anvil"⟩ : Workstation).Other ≠ "") ∨
      ((⟨0, "Lead Anvil"⟩ : Workstation) = ⟨0, ""⟩ ∧
        (TrimSpace label = "" ∨
          (⟨[("Iron Anvil", 35)]⟩ : GoMap String Int).get? (TrimSpace label) = some 0))) :=
  ⟨by decide!, by decide,
    C11_at_most_one_populated ⟨[("Iron Anvil", 35)]⟩ [] twoLabelLine
      [⟨35, ""⟩, ⟨0, "Lead Anvil"⟩] ⟨0, "Lead Anvil"⟩ (by decide!) (by decide)⟩

/-- C12: every recipe in the list returned by `listRecipes` has a non-empty
`Workstations`, and every group a table-of-contents line appends to the queue holds
at least one workstation. -/
theorem C12_workstations_nonempty (fetch : String → Option String)
    (items : GoMap String Int) (rs : List Recipe)
    (h : listRecipes fetch items = .ok rs) :
    (∀ r ∈ rs, r.Workstations ≠ []) ∧
    (∀ (q : List (List Workstation)) (line : String),
      ∀ g ∈ (parseListingLine items q line).drop q.length, g ≠ []) := by
  have hP : ∀ (line : String) (pre : List String),
      pre ∈ prefixes (labelRe.FindAllStringSubmatch line) →
      pre.map (labelWorkstation items) ≠ [] := by
    intro line pre hpre
    have := (prefixes_mem _ pre hpre).1
    simpa using this
  refine ⟨listRecipes_invariant fetch items (fun g => g ≠ []) hP rs h, ?_⟩
  intro q line g hg
  rw [parseListingLine_drop] at hg
  obtain ⟨pre, hpre, rfl⟩ := List.mem_map.1 hg
  exact hP line pre hpre

/-- C12 on the example pages. -/
theorem C12_workstations_nonempty_witness :
    listRecipes exampleFetch exampleIds = .ok [exampleRecipe] ∧
    (∀ r ∈ [exampleRecipe], r.Workstations ≠ []) :=
  ⟨by decide!, (C12_workstations_nonempty exampleFetch exampleIds [exampleRecipe]
    (by decide!)).1⟩

/-! ## Claims on the recipe table parser -/

theorem forall₂_mem_left {α β : Type} {R : α → β → Prop} {l₁ : List α} {l₂ : List β}
    (h : List.Forall₂ R l₁ l₂) : ∀ a ∈ l₁, ∃ b ∈ l₂, R a b := by
  induction h with
  | nil => intro a ha; cases ha
  | cons hd _ ih =>
    intro a ha
    rcases List.mem_cons.1 ha with rfl | ha
    · exact ⟨_, List.mem_cons_self _ _, hd⟩
    · obtain ⟨b, hb, hr⟩ := ih a ha
      exact ⟨b, List.mem_cons_of_mem _ hb, hr⟩

/-- Every record of a parsed sub-page, with the product line and the ingredient lines
of the page it was read from. -/
theorem listWorkstationRecipes_records {fetch : String → Option String}
    {items : GoMap String Int} {g : List Workstation} {url : String} {page : List Recipe}
    (h : listWorkstationRecipes fetch items g url = .ok page) :
    ∃ raw, fetch ("http://terraria.gamepedia.com" ++ url) = some raw ∧
      ∀ r ∈ page, r.Id = 0 ∧ r.Workstations = g ∧
        ∃ pl ∈ scanLines (Replace raw "</tr><tr>" "</tr>\n<tr>"),
          (∃ t, submatch1 titleRe pl = .ok t ∧
            r.Product = ⟨items.index (TrimSpace t), parseCount pl⟩) ∧
          (∃ rs, submatch1 rowspanRe pl = .ok rs ∧
            r.Ingredients.length = (Atoi (TrimSpace rs)).toNat ∧
            r.Ingredients.length ≤
              (scanLines (Replace raw "</tr><tr>" "</tr>\n<tr>")).length) ∧
          ∀ ing ∈ r.Ingredients, ∃ il ∈ scanLines (Replace raw "</tr><tr>" "</tr>\n<tr>"),
            ∃ t, submatch1 titleRe il = .ok t ∧
              ing = ⟨items.index (TrimSpace t), parseCount il⟩ := by
  obtain ⟨raw, trace, hf, hfa, _, hsub, hmem⟩ := listWorkstationRecipes_trace h
  refine ⟨raw, hf, ?_⟩
  intro r hr
  obtain ⟨tr, htr, _, hid, hws, hprod, ⟨rs, hrs, hlen⟩, hings⟩ := forall₂_mem_left hfa r hr
  have hpl : tr.2.1 ∈ scanLines (Replace raw "</tr><tr>" "</tr>\n<tr>") :=
    hsub.subset (List.mem_map.2 ⟨tr, htr, rfl⟩)
  have hl := hings.length_eq
  refine ⟨hid, hws, tr.2.1, hpl, hprod, ⟨rs, hrs, by rw [hl, hlen], by
    rw [hl]; exact (hmem tr htr).2⟩, ?_⟩
  intro ing hing
  obtain ⟨il, hil, t, ht, he⟩ := forall₂_mem_left hings ing hing
  exact ⟨il, (hmem tr htr).1 il hil, t, ht, he⟩

theorem ingredientsLoop_congr (items1 items : GoMap String Int)
    (hi : ∀ n, items1.index n = items.index n) :
    ∀ (n : Nat) (b : Scanner) (acc : List Ingredient),
    ingredientsLoop items1 n b acc = ingredientsLoop items n b acc := by
  intro n
  induction n with
  | zero => intro b acc; rfl
  | succ n ih =>
    intro b acc
    rw [ingredientsLoop, ingredientsLoop]
    simp only [hi, ih]

theorem recipesLoop_congr (items1 items : GoMap String Int) (g : List Workstation)
    (hi : ∀ n, items1.index n = items.index n) :
    ∀ (fuel : Nat) (b : Scanner) (acc : List Recipe),
    recipesLoop items1 g fuel b acc = recipesLoop items g fuel b acc := by
  intro fuel
  induction fuel with
  | zero => intro b acc; rfl
  | succ fuel ih =>
    intro b acc
    rw [recipesLoop, recipesLoop]
    simp only [hi, ih, ingredientsLoop_congr items1 items hi]

/-- The parse of a sub-page reads the name table through `items[name]` only. -/
theorem listWorkstationRecipes_congr (fetch : String → Option String)
    (items1 items : GoMap String Int) (g : List Workstation) (url : String)
    (hi : ∀ n, items1.index n = items.index n) :
    listWorkstationRecipes fetch items1 g url = listWorkstationRecipes fetch items g url := by
  unfold listWorkstationRecipes
  simp only [recipesLoop_congr items1 items g hi]

/-- C13 as stated fails: the product line carries `(9223372036854775808)` and the
count is `9223372036854775807`, the value `strconv.Atoi` returns with its range
error. -/
theorem C13_count_counterexample :
    countRe.FindStringSubmatch bigCountLine = some "9223372036854775808" ∧
    listWorkstationRecipes (pageWiki (recordPage bigCountLine)) exampleIds [⟨0, "By Hand"⟩]
        "/Recipes/By_Hand" =
      .ok [⟨0, [⟨0, "By Hand"⟩], [], ⟨2, 9223372036854775807⟩⟩] := by
  constructor <;> decide!

/-- C13 amended: for the product and for every ingredient of a parsed sub-page, the
count is `1` when the line it is read from has no parenthesized run of digits, and
otherwise the value of the first such run, capped at `2 ^ 63 - 1`. -/
theorem C13_count_default_or_parsed (fetch : String → Option String)
    (items : GoMap String Int) (g : List Workstation) (url : String) (page : List Recipe)
    (h : listWorkstationRecipes fetch items g url = .ok page) :
    ∃ raw, fetch ("http://terraria.gamepedia.com" ++ url) = some raw ∧
      ∀ r ∈ page,
        (∃ pl ∈ scanLines (Replace raw "</tr><tr>" "</tr>\n<tr>"),
          (∃ t, submatch1 titleRe pl = .ok t ∧ r.Product.Item = items.index (TrimSpace t)) ∧
          ((countRe.FindStringSubmatch pl = none ∧ r.Product.Count = 1) ∨
            ∃ m, countRe.FindStringSubmatch pl = some m ∧
              r.Product.Count = min (digitsValue 0 m.data : Int) (2 ^ 63 - 1))) ∧
        ∀ ing ∈ r.Ingredients, ∃ il ∈ scanLines (Replace raw "</tr><tr>" "</tr>\n<tr>"),
          (∃ t, submatch1 titleRe il = .ok t ∧ ing.Item = items.index (TrimSpace t)) ∧
          ((countRe.FindStringSubmatch il = none ∧ ing.Count = 1) ∨
            ∃ m, countRe.FindStringSubmatch il = some m ∧
              ing.Count = min (digitsValue 0 m.data : Int) (2 ^ 63 - 1)) := by
  obtain ⟨raw, hf, hrec⟩ := listWorkstationRecipes_records h
  refine ⟨raw, hf, ?_⟩
  intro r hr
  obtain ⟨_, _, pl, hpl, ⟨t, ht, hp⟩, _, hings⟩ := hrec r hr
  refine ⟨⟨pl, hpl, ⟨t, ht, by rw [hp]⟩, ?_⟩, ?_⟩
  · rw [hp]
    exact parseCount_cases pl
  · intro ing hing
    obtain ⟨il, hil, t1, ht1, he⟩ := hings ing hing
    refine ⟨il, hil, ⟨t1, ht1, by rw [he]⟩, ?_⟩
    rw [he]
    exact parseCount_cases il

/-- C13 amended, on Scenario B: a product line with `(5)` gives `Product.Count = 5`. -/
theorem C13_count_default_or_parsed_witness :
    listWorkstationRecipes (pageWiki (recordPage scenarioBLine)) exampleIds [⟨0, "By Hand"⟩]
        "/Recipes/By_Hand" = .ok [⟨0, [⟨0, "By Hand"⟩], [], ⟨2, 5⟩⟩] ∧
    countRe.FindStringSubmatch scenarioBLine = some "5" ∧
    ∃ raw, pageWiki (recordPage scenarioBLine) ("http://terraria.gamepedia.com" ++
        "/Recipes/By_Hand") = some raw ∧
      ∀ r ∈ [(⟨0, [⟨0, "By Hand"⟩], [], ⟨2, 5⟩⟩ : Recipe)],
        (∃ pl ∈ scanLines (Replace raw "</tr><tr>" "</tr>\n<tr>"),
          (∃ t, submatch1 titleRe pl = .ok t ∧
            r.Product.Item = exampleIds.index (TrimSpace t)) ∧
          ((countRe.FindStringSubmatch pl = none ∧ r.Product.Count = 1) ∨
            ∃ m, countRe.FindStringSubmatch pl = some m ∧
              r.Product.Count = min (digitsValue 0 m.data : Int) (2 ^ 63 - 1))) ∧
        ∀ ing ∈ r.Ingredients, ∃ il ∈ scanLines (Replace raw "</tr><tr>" "</tr>\n<tr>"),
          (∃ t, submatch1 titleRe il = .ok t ∧ ing.Item = exampleIds.index (TrimSpace t)) ∧
          ((countRe.FindStringSubmatch il = none ∧ ing.Count = 1) ∨
            ∃ m, countRe.FindStringSubmatch il = some m ∧
              ing.Count = min (digitsValue 0 m.data : Int) (2 ^ 63 - 1)) :=
  ⟨by decide!, by decide!,
    C13_count_default_or_parsed (pageWiki (recordPage scenarioBLine)) exampleIds
      [⟨0, "By Hand"⟩] "/Recipes/By_Hand" [⟨0, [⟨0, "By Hand"⟩], [], ⟨2, 5⟩⟩] (by decide!)⟩

/-- C14 as stated fails: a product line carrying `(0)` gives `Product.Count = 0`. -/
theorem C14_count_zero_counterexample :
    listWorkstationRecipes (pageWiki (recordPage zeroCountLine)) exampleIds [⟨0, "By Hand"⟩]
        "/Recipes/By_Hand" = .ok [⟨0, [⟨0, "By Hand"⟩], [], ⟨2, 0⟩⟩] ∧
    ¬ ∀ r ∈ [(⟨0, [⟨0, "By Hand"⟩], [], ⟨2, 0⟩⟩ : Recipe)], 1 ≤ r.Product.Count := by
  constructor
  · decide!
  · decide

/-- C14 amended: in every recipe of a parsed sub-page the product count and every
ingredient count is at least `1`, unless the line it is read from carries a
parenthesized number of value `0`, in which case the count is `0`. -/
theorem C14_count_positive_unless_zero (fetch : String → Option String)
    (items : GoMap String Int) (g : List Workstation) (url : String) (page : List Recipe)
    (h : listWorkstationRecipes fetch items g url = .ok page) :
    ∃ raw, fetch ("http://terraria.gamepedia.com" ++ url) = some raw ∧
      ∀ r ∈ page,
        (1 ≤ r.Product.Count ∨
          (r.Product.Count = 0 ∧ ∃ pl ∈ scanLines (Replace raw "</tr><tr>" "</tr>\n<tr>"),
            ∃ m, countRe.FindStringSubmatch pl = some m ∧ digitsValue 0 m.data = 0)) ∧
        ∀ ing ∈ r.Ingredients,
          1 ≤ ing.Count ∨
          (ing.Count = 0 ∧ ∃ il ∈ scanLines (Replace raw "</tr><tr>" "</tr>\n<tr>"),
            ∃ m, countRe.FindStringSubmatch il = some m ∧ digitsValue 0 m.data = 0) := by
  obtain ⟨raw, hf, hrec⟩ := listWorkstationRecipes_records h
  refine ⟨raw, hf, ?_⟩
  have key : ∀ (line : String),
      1 ≤ parseCount line ∨ (parseCount line = 0 ∧
        ∃ m, countRe.FindStringSubmatch line = some m ∧ digitsValue 0 m.data = 0) := by
    intro line
    rcases parseCount_cases line with ⟨_, h1⟩ | ⟨m, hm, hc⟩
    · left; rw [h1]
    · by_cases hz : digitsValue 0 m.data = 0
      · right
        refine ⟨?_, m, hm, hz⟩
        rw [hc, hz]; decide
      · left
        rw [hc]
        have : (1 : Int) ≤ (digitsValue 0 m.data : Int) := by omega
        exact le_min this (by decide)
  intro r hr
  obtain ⟨_, _, pl, hpl, ⟨t, ht, hp⟩, _, hings⟩ := hrec r hr
  constructor
  · rw [hp]
    rcases key pl with h1 | ⟨h0, m, hm, hz⟩
    · exact Or.inl h1
    · exact Or.inr ⟨h0, pl, hpl, m, hm, hz⟩
  · intro ing hing
    obtain ⟨il, hil, t1, ht1, he⟩ := hings ing hing
    rw [he]
    rcases key il with h1 | ⟨h0, m, hm, hz⟩
    · exact Or.inl h1
    · exact Or.inr ⟨h0, il, hil, m, hm, hz⟩

/-- C14 amended, on the example sub-page: every count is at least `1`. -/
theorem C14_count_positive_unless_zero_witness :
    listWorkstationRecipes exampleFetch exampleIds [⟨0, "By Hand"⟩] "/Recipes/By_Hand" =
      .ok [exampleRecord [⟨0, "By Hand"⟩]] ∧
    ∃ raw, exampleFetch ("http://terraria.gamepedia.com" ++ "/Recipes/By_Hand") = some raw ∧
      ∀ r ∈ [exampleRecord [⟨0, "By Hand"⟩]],
        (1 ≤ r.Product.Count ∨
          (r.Product.Count = 0 ∧ ∃ pl ∈ scanLines (Replace raw "</tr><tr>" "</tr>\n<tr>"),
            ∃ m, countRe.FindStringSubmatch pl = some m ∧ digitsValue 0 m.data = 0)) ∧
        ∀ ing ∈ r.Ingredients,
          1 ≤ ing.Count ∨
          (ing.Count = 0 ∧ ∃ il ∈ scanLines (Replace raw "</tr><tr>" "</tr>\n<tr>"),
            ∃ m, countRe.FindStringSubmatch il = some m ∧ digitsValue 0 m.data = 0) :=
  ⟨by decide!,
    C14_count_positive_unless_zero exampleFetch exampleIds [⟨0, "By Hand"⟩] "/Recipes/By_Hand"
      [exampleRecord [⟨0, "By Hand"⟩]] (by decide!)⟩

theorem forall₂_and_right {α β : Type} {R : α → β → Prop} {Q : β → Prop}
    {l₁ : List α} {l₂ : List β} (h : List.Forall₂ R l₁ l₂) (hq : ∀ b ∈ l₂, Q b) :
    List.Forall₂ (fun a b => R a b ∧ Q b) l₁ l₂ := by
  induction h with
  | nil => exact List.Forall₂.nil
  | cons hd _ ih =>
    exact List.Forall₂.cons ⟨hd, hq _ (List.mem_cons_self _ _)⟩
      (ih (fun b hb => hq b (List.mem_cons_of_mem _ hb)))

theorem mysteryTable_index (n : String) :
    (⟨("Mystery", 0) :: exampleIds.entries⟩ : GoMap String Int).index n =
      exampleIds.index n := by
  by_cases hn : n = "Mystery"
  · subst hn; decide
  · have hn2 : ¬ "Mystery" = n := fun e => hn e.symm
    simp [GoMap.index, GoMap.get?, List.find?_cons, hn2]

/-- C15 as stated fails: the product name Mystery is not in the name table, the
parse goes on and returns a recipe whose product is item `0`. -/
theorem C15_unresolved_name_counterexample :
    titleRe.FindStringSubmatch unknownNameLine = some "Mystery" ∧
    exampleIds.get? (TrimSpace "Mystery") = none ∧
    listWorkstationRecipes (pageWiki (recordPage unknownNameLine)) exampleIds [⟨0, "By Hand"⟩]
        "/Recipes/By_Hand" = .ok [⟨0, [⟨0, "By Hand"⟩], [], ⟨0, 1⟩⟩] := by
  refine ⟨by decide!, by decide!, by decide!⟩

/-- C15 amended: a product or ingredient name that is not a key of the name table
does not fail the parse; it gives the item id `0`, as if the table mapped the name to
`0`, and the recipe is returned with that id. -/
theorem C15_absent_name_is_item_zero (fetch : String → Option String)
    (items : GoMap String Int) (g : List Workstation) (url : String) (page : List Recipe)
    (h : listWorkstationRecipes fetch items g url = .ok page) :
    (∀ items1 : GoMap String Int, (∀ n, items1.index n = items.index n) →
      listWorkstationRecipes fetch items1 g url = .ok page) ∧
    ∃ raw, fetch ("http://terraria.gamepedia.com" ++ url) = some raw ∧
      ∀ r ∈ page,
        (∃ pl ∈ scanLines (Replace raw "</tr><tr>" "</tr>\n<tr>"),
          ∃ t, submatch1 titleRe pl = .ok t ∧
            (∀ id, items.get? (TrimSpace t) = some id → r.Product.Item = id) ∧
            (items.get? (TrimSpace t) = none → r.Product.Item = 0)) ∧
        ∀ ing ∈ r.Ingredients, ∃ il ∈ scanLines (Replace raw "</tr><tr>" "</tr>\n<tr>"),
          ∃ t, submatch1 titleRe il = .ok t ∧
            (∀ id, items.get? (TrimSpace t) = some id → ing.Item = id) ∧
            (items.get? (TrimSpace t) = none → ing.Item = 0) := by
  constructor
  · intro items1 hi
    rw [listWorkstationRecipes_congr fetch items1 items g url hi]
    exact h
  · obtain ⟨raw, hf, hrec⟩ := listWorkstationRecipes_records h
    refine ⟨raw, hf, ?_⟩
    have key : ∀ (n : String), (∀ id, items.get? n = some id → items.index n = id) ∧
        (items.get? n = none → items.index n = 0) := by
      intro n
      unfold GoMap.index
      constructor
      · intro id hid; rw [hid]; rfl
      · intro hn; rw [hn]; rfl
    intro r hr
    obtain ⟨_, _, pl, hpl, ⟨t, ht, hp⟩, _, hings⟩ := hrec r hr
    refine ⟨⟨pl, hpl, t, ht, ?_, ?_⟩, ?_⟩
    · intro id hid; rw [hp]; exact (key _).1 id hid
    · intro hn; rw [hp]; exact (key _).2 hn
    · intro ing hing
      obtain ⟨il, hil, t1, ht1, he⟩ := hings ing hing
      refine ⟨il, hil, t1, ht1, ?_, ?_⟩
      · intro id hid; rw [he]; exact (key _).1 id hid
      · intro hn; rw [he]; exact (key _).2 hn

/-- C15 amended, on the sub-page whose product is called Mystery. -/
theorem C15_absent_name_is_item_zero_witness :
    listWorkstationRecipes (pageWiki (recordPage unknownNameLine)) exampleIds [⟨0, "By Hand"⟩]
        "/Recipes/By_Hand" = .ok [⟨0, [⟨0, "By Hand"⟩], [], ⟨0, 1⟩⟩] ∧
    listWorkstationRecipes (pageWiki (recordPage unknownNameLine))
        ⟨("Mystery", 0) :: exampleIds.entries⟩ [⟨0, "By Hand"⟩] "/Recipes/By_Hand" =
      .ok [⟨0, [⟨0, "By Hand"⟩], [], ⟨0, 1⟩⟩] :=
  ⟨by decide!,
    (C15_absent_name_is_item_zero (pageWiki (recordPage unknownNameLine)) exampleIds
      [⟨0, "By Hand"⟩] "/Recipes/By_Hand" [⟨0, [⟨0, "By Hand"⟩], [], ⟨0, 1⟩⟩] (by decide!)).1
      ⟨("Mystery", 0) :: exampleIds.entries⟩ mysteryTable_index⟩

/-- C16 as stated fails: the second record of the page has no name attribute, the
parse panics and returns nothing, although the first record alone is parsed to a
recipe (Scenario D). -/
theorem C16_missing_name_counterexample :
    listWorkstationRecipes (pageWiki firstRecordPage) exampleIds [⟨0, "By Hand"⟩]
        "/Recipes/By_Hand" = .ok [⟨0, [⟨0, "By Hand"⟩], [], ⟨2, 1⟩⟩] ∧
    listWorkstationRecipes (pageWiki missingTitlePage) exampleIds [⟨0, "By Hand"⟩]
        "/Recipes/By_Hand" = .error GoPanic.indexOutOfRange ∧
    ¬ ∃ page, listWorkstationRecipes (pageWiki missingTitlePage) exampleIds [⟨0, "By Hand"⟩]
        "/Recipes/By_Hand" = .ok page := by
  refine ⟨by decide!, by decide!, ?_⟩
  rintro ⟨page, hp⟩
  have h : listWorkstationRecipes (pageWiki missingTitlePage) exampleIds [⟨0, "By Hand"⟩]
      "/Recipes/By_Hand" = .error GoPanic.indexOutOfRange := by decide!
  rw [h] at hp
  cases hp

/-- C16 amended: when the line the closure `scan` stops at after a row-start line has
no match of the name attribute, the record loop panics with an index out of range,
whatever recipes it has accumulated, so the page returns none; a page that panics
ends the directory loop of `listRecipes` with the same panic. -/
theorem C16_missing_name_panics (fetch : String → Option String) (items : GoMap String Int)
    (g : List Workstation) (fuel : Nat) (b : Scanner) (acc : List Recipe)
    (hm : Contains b.text "style=\"text-align:center;width:1%\">" = true)
    (ht : titleRe.FindStringSubmatch (scan b).text = none) :
    recipesLoop items g (fuel + 1) b acc = some (.error GoPanic.indexOutOfRange) ∧
    (∀ (st : DirState) (gs : List (List Workstation)) (line u : String) (ls : List String)
      (e : GoPanic),
      st.listing = false → st.workstations = g :: gs →
      Contains line "<a href=\"/Recipes/" = true → submatch1 linkRe line = .ok u →
      listWorkstationRecipes fetch items g (TrimSpace u) = .error e →
      listRecipesLoop fetch items (line :: ls) st = .error e) := by
  constructor
  · rw [recipesLoop]
    simp only [hm, Bool.not_true, Bool.false_eq_true, if_false]
    simp only [submatch1, ht]
  · intro st gs line u ls e hl hw hc hu he
    rw [listRecipesLoop, listRecipesStep]
    simp only [hl, hw, hc, hu, he, Bool.false_eq_true, if_false, Bool.not_true]

/-- C16 amended, on the second record of `missingTitlePage`, met with one recipe
accumulated. -/
theorem C16_missing_name_panics_witness :
    Contains (⟨"<tr><td style=\"text-align:center;width:1%\">",
        ["<a rowspan=\"0\"><img></a>", "<b>Torch</b>"]⟩ : Scanner).text
      "style=\"text-align:center;width:1%\">" = true ∧
    titleRe.FindStringSubmatch (scan ⟨"<tr><td style=\"text-align:center;width:1%\">",
        ["<a rowspan=\"0\"><img></a>", "<b>Torch</b>"]⟩).text = none ∧
    recipesLoop exampleIds [⟨0, "By Hand"⟩] (0 + 1)
        ⟨"<tr><td style=\"text-align:center;width:1%\">",
          ["<a rowspan=\"0\"><img></a>", "<b>Torch</b>"]⟩
        [⟨0, [⟨0, "By Hand"⟩], [], ⟨2, 1⟩⟩] = some (.error GoPanic.indexOutOfRange) :=
  ⟨by decide!, by decide!,
    (C16_missing_name_panics exampleFetch exampleIds [⟨0, "By Hand"⟩] 0
      ⟨"<tr><td style=\"text-align:center;width:1%\">",
        ["<a rowspan=\"0\"><img></a>", "<b>Torch</b>"]⟩
      [⟨0, [⟨0, "By Hand"⟩], [], ⟨2, 1⟩⟩] (by decide!) (by decide!)).1⟩

/-- C18: on a page that `listWorkstationRecipes` parses without a panic, every
recipe has `Workstations` equal to the group passed in, `Id = 0` and as many
ingredients as the `rowspan` attribute of its product line says (the number
`strconv.Atoi` reads, which is the value of the digits on any page of fewer than
`2 ^ 63 - 1` lines); the recipes come in the order of their row-start lines and of
their product lines on the page. -/
theorem C18_records_in_page_order (fetch : String → Option String)
    (items : GoMap String Int) (g : List Workstation) (url : String) (page : List Recipe)
    (h : listWorkstationRecipes fetch items g url = .ok page) :
    ∃ (raw : String) (rows : List (String × String)),
      fetch ("http://terraria.gamepedia.com" ++ url) = some raw ∧
      (rows.map Prod.fst).Sublist (scanLines (Replace raw "</tr><tr>" "</tr>\n<tr>")) ∧
      (rows.map Prod.snd).Sublist (scanLines (Replace raw "</tr><tr>" "</tr>\n<tr>")) ∧
      List.Forall₂ (fun r row =>
        Contains row.1 "style=\"text-align:center;width:1%\">" = true ∧
        r.Workstations = g ∧ r.Id = 0 ∧
        ∃ rs, submatch1 rowspanRe row.2 = .ok rs ∧
          (r.Ingredients.length : Int) = Atoi (TrimSpace rs) ∧
          ((scanLines (Replace raw "</tr><tr>" "</tr>\n<tr>")).length < 2 ^ 63 - 1 →
            r.Ingredients.length = digitsValue 0 rs.data)) page rows := by
  obtain ⟨raw, trace, hf, hfa, hmark, hsub, hmem⟩ := listWorkstationRecipes_trace h
  refine ⟨raw, trace.map (fun tr => (tr.1, tr.2.1)), hf, ?_, ?_, ?_⟩
  · simpa [List.map_map, Function.comp_def] using hmark
  · simpa [List.map_map, Function.comp_def] using hsub
  · rw [List.forall₂_map_right_iff]
    refine (forall₂_and_right hfa hmem).imp ?_
    rintro r tr ⟨⟨hm, hid, hws, _, ⟨rs, hrs, hlen⟩, hings⟩, _, hle⟩
    refine ⟨hm, hws, hid, rs, hrs, ?_, ?_⟩
    · have hl := hings.length_eq
      have ha := Atoi_rowspan _ rs hrs
      have hnn : (0 : Int) ≤ Atoi (TrimSpace rs) := by
        rw [ha]
        exact le_min (Int.ofNat_nonneg _) (by decide)
      rw [hl, hlen]
      exact Int.toNat_of_nonneg hnn
    · intro hbound
      have hl := hings.length_eq
      have ha := Atoi_rowspan _ rs hrs
      rw [hl]
      rw [hlen] at hle ⊢
      rw [ha] at hle ⊢
      by_cases hv : (digitsValue 0 rs.data : Int) ≤ 2 ^ 63 - 1
      · rw [min_eq_left hv]
        simp
      · rw [min_eq_right (by omega)] at hle
        have h1 : ((2 : Int) ^ 63 - 1).toNat = 2 ^ 63 - 1 := by decide
        rw [h1] at hle
        omega

/-- C18 on the example sub-page: one record, read from the row-start line and the
product line of Torch, with two ingredients. -/
theorem C18_records_in_page_order_witness :
    listWorkstationRecipes exampleFetch exampleIds [⟨0, "By Hand"⟩] "/Recipes/By_Hand" =
      .ok [exampleRecord [⟨0, "By Hand"⟩]] ∧
    ∃ (raw : String) (rows : List (String × String)),
      exampleFetch ("http://terraria.gamepedia.com" ++ "/Recipes/By_Hand") = some raw ∧
      (rows.map Prod.fst).Sublist (scanLines (Replace raw "</tr><tr>" "</tr>\n<tr>")) ∧
      (rows.map Prod.snd).Sublist (scanLines (Replace raw "</tr><tr>" "</tr>\n<tr>")) ∧
      List.Forall₂ (fun r row =>
        Contains row.1 "style=\"text-align:center;width:1%\">" = true ∧
        r.Workstations = [⟨0, "By Hand"⟩] ∧ r.Id = 0 ∧
        ∃ rs, submatch1 rowspanRe row.2 = .ok rs ∧
          (r.Ingredients.length : Int) = Atoi (TrimSpace rs) ∧
          ((scanLines (Replace raw "</tr><tr>" "</tr>\n<tr>")).length < 2 ^ 63 - 1 →
            r.Ingredients.length = digitsValue 0 rs.data))
        [exampleRecord [⟨0, "By Hand"⟩]] rows :=
  ⟨by decide!,
    C18_records_in_page_order exampleFetch exampleIds [⟨0, "By Hand"⟩] "/Recipes/By_Hand"
      [exampleRecord [⟨0, "By Hand"⟩]] (by decide!)⟩

/-! ## Claims on the item catalog parser -/

theorem digitsRe_find_none : ∀ (s : List Char), (∀ c ∈ s, c.isDigit = false) →
    digitsRe.find s = none := by
  intro s
  induction s with
  | nil => intro _; rfl
  | cons c cs ih =>
    intro h
    have hc : c.isDigit = false := h c (by simp)
    have hm : digitsRe.matchAt (c :: cs) = none := by
      simp [Pattern.matchAt, digitsRe, List.takeWhile_cons, hc]
    rw [Pattern.find, hm]
    exact ih (fun x hx => h x (List.mem_cons_of_mem _ hx))

theorem parseItem_no_digit (line idLine : String) (t s : String)
    (ht : submatch1 titleRe line = .ok t) (hs : submatch1 srcRe line = .ok s)
    (hd : ∀ c ∈ idLine.data, c.isDigit = false) :
    parseItem line idLine =
      .ok ⟨0, Replace (TrimSpace t) "&#39;" "'", Replace (TrimSpace s) "%27" "'"⟩ := by
  unfold parseItem
  rw [ht, hs]
  have hf : digitsRe.FindString idLine = "" := by
    unfold Pattern.FindString
    rw [digitsRe_find_none _ hd]
  rw [hf]
  have ha : Atoi (TrimSpace "") = 0 := by decide
  rw [ha]

/-- C17 as stated fails: a marker line followed by a line without a digit, or by
the end of the page, appends an item with `Id = 0` and the parse returns
normally. -/
theorem C17_missing_id_counterexample :
    listItems (itemsWiki noIdPage) = .ok [⟨0, "Wood", "/Wood.png"⟩] ∧
    listItems (itemsWiki markerOnlyPage) = .ok [⟨0, "Wood", "/Wood.png"⟩] := by
  constructor <;> decide!

/-- C17 amended: when a catalog marker line with a name and an image attribute is
followed by a line that contains no decimal digit, or by the end of the page,
`listItems` appends an item with `Id = 0` for that marker and goes on. -/
theorem C17_missing_id_is_zero (line t s : String) (rest : List String)
    (items : List Tdb.Item)
    (hm : Contains line "<span style=\"white-space:nowrap\">" = true)
    (ht : submatch1 titleRe line = .ok t) (hs : submatch1 srcRe line = .ok s) :
    (∀ idLine : String, (∀ c ∈ idLine.data, c.isDigit = false) →
      listItemsLoop (line :: idLine :: rest) items =
        listItemsLoop rest
          (items ++ [⟨0, Replace (TrimSpace t) "&#39;" "'", Replace (TrimSpace s) "%27" "'"⟩])) ∧
    listItemsLoop [line] items =
      .ok (items ++ [⟨0, Replace (TrimSpace t) "&#39;" "'", Replace (TrimSpace s) "%27" "'"⟩]) := by
  constructor
  · intro idLine hd
    rw [listItemsLoop]
    simp only [hm, Bool.not_true, Bool.false_eq_true, if_false,
      parseItem_no_digit line idLine t s ht hs hd]
  · rw [listItemsLoop]
    simp only [hm, Bool.not_true, Bool.false_eq_true, if_false,
      parseItem_no_digit line "" t s ht hs (by simp)]

/-- C17 amended, on the marker line of Wood followed by a line without a digit. -/
theorem C17_missing_id_is_zero_witness :
    Contains woodMarkerLine "<span style=\"white-space:nowrap\">" = true ∧
    submatch1 titleRe woodMarkerLine = .ok "Wood" ∧
    submatch1 srcRe woodMarkerLine = .ok "/Wood.png" ∧
    (∀ c ∈ ("<td>none</td>" : String).data, c.isDigit = false) ∧
    listItemsLoop (woodMarkerLine :: "<td>none</td>" :: []) [] =
      listItemsLoop []
        ([] ++ [⟨0, Replace (TrimSpace "Wood") "&#39;" "'",
          Replace (TrimSpace "/Wood.png") "%27" "'"⟩]) :=
  ⟨by decide!, by decide!, by decide!, by decide!,
    (C17_missing_id_is_zero woodMarkerLine "Wood" "/Wood.png" [] [] (by decide!) (by decide!)
      (by decide!)).1 "<td>none</td>" (by decide!)⟩

/-! ## Claim on the preprocessing of a sub-page -/

theorem replaceAux_skip (old new : List Char) : ∀ (s : List Char) (k : Nat),
    replaceAux old new k s = replaceAux old new 0 (s.drop k) := by
  intro s
  induction s with
  | nil => intro k; cases k <;> rfl
  | cons c cs ih =>
    intro k
    cases k with
    | zero => rfl
    | succ k => rw [replaceAux, ih k, List.drop_succ_cons]

theorem replaceAux_cons_match (old new : List Char) (c : Char) (cs : List Char)
    (h : old.isPrefixOf (c :: cs) = true) :
    replaceAux old new 0 (c :: cs) =
      new ++ replaceAux old new 0 (cs.drop (old.length - 1)) := by
  rw [replaceAux, if_pos h, replaceAux_skip]

theorem replaceAux_cons_ne (old new : List Char) (c : Char) (cs : List Char)
    (h : ¬ old.isPrefixOf (c :: cs) = true) :
    replaceAux old new 0 (c :: cs) = c :: replaceAux old new 0 cs := by
  rw [replaceAux, if_neg h]

theorem rowSplit_not_after_suffix : ∀ u ∈ rowJoin.tail.tails, u ≠ [] →
    ∀ Y : List Char, u.isPrefixOf (rowSplit ++ Y) = false := by
  intro u hu hne Y
  have ht : rowJoin.tail.tails =
      [['/', 't', 'r', '>', '<', 't', 'r', '>'], ['t', 'r', '>', '<', 't', 'r', '>'],
       ['r', '>', '<', 't', 'r', '>'], ['>', '<', 't', 'r', '>'], ['<', 't', 'r', '>'],
       ['t', 'r', '>'], ['r', '>'], ['>'], []] := by decide
  rw [ht] at hu
  simp only [List.mem_cons, List.mem_singleton, List.not_mem_nil, or_false] at hu
  rcases hu with rfl | rfl | rfl | rfl | rfl | rfl | rfl | rfl | rfl
  all_goals first | rfl | exact absurd rfl hne

theorem suffix_prefix_of_replace : ∀ (u : List Char), u <:+ rowJoin.tail →
    ∀ s : List Char, u.isPrefixOf (replaceAux rowJoin rowSplit 0 s) = true →
      u.isPrefixOf s = true := by
  intro u
  induction u with
  | nil => intro _ s _; cases s <;> rfl
  | cons a u ih =>
    intro hu s h
    have hu1 : u <:+ rowJoin.tail := (List.suffix_cons a u).trans hu
    cases s with
    | nil => simp [replaceAux] at h
    | cons c cs =>
      by_cases hm : rowJoin.isPrefixOf (c :: cs) = true
      · rw [replaceAux_cons_match _ _ _ _ hm] at h
        rw [rowSplit_not_after_suffix (a :: u) ((List.mem_tails _ _).2 hu) (by simp)] at h
        cases h
      · rw [replaceAux_cons_ne _ _ _ _ hm] at h
        simp only [List.isPrefixOf, Bool.and_eq_true] at h ⊢
        exact ⟨h.1, ih hu1 cs h.2⟩

theorem containsChars_rowSplit_append (Y : List Char)
    (hY : containsChars rowJoin Y = false) :
    containsChars rowJoin (rowSplit ++ Y) = false := by
  have hs : rowSplit = ['<', '/', 't', 'r', '>', '\n', '<', 't', 'r', '>'] := by decide
  have hj : rowJoin = ['<', '/', 't', 'r', '>', '<', 't', 'r', '>'] := by decide
  rw [hj] at hY
  rw [hs, hj]
  simp [containsChars, List.isPrefixOf, hY]

/-- The normalized text has no row start directly after a row end. -/
theorem replace_no_rowJoin : ∀ (n : Nat) (s : List Char), s.length ≤ n →
    containsChars rowJoin (replaceAux rowJoin rowSplit 0 s) = false := by
  intro n
  induction n with
  | zero =>
    intro s hs
    have : s = [] := List.length_eq_zero.1 (Nat.le_zero.1 hs)
    subst this
    rfl
  | succ n ih =>
    intro s hs
    cases s with
    | nil => rfl
    | cons c cs =>
      simp only [List.length_cons] at hs
      by_cases hm : rowJoin.isPrefixOf (c :: cs) = true
      · rw [replaceAux_cons_match _ _ _ _ hm]
        apply containsChars_rowSplit_append
        apply ih
        simp only [List.length_drop]
        omega
      · rw [replaceAux_cons_ne _ _ _ _ hm, containsChars, ih cs (by omega), Bool.or_false]
        cases hp : rowJoin.isPrefixOf (c :: replaceAux rowJoin rowSplit 0 cs) with
        | false => rfl
        | true =>
          exfalso
          apply hm
          have hj : rowJoin = '<' :: rowJoin.tail := by decide
          rw [hj] at hp ⊢
          simp only [List.isPrefixOf, Bool.and_eq_true] at hp ⊢
          exact ⟨hp.1, suffix_prefix_of_replace _ (List.suffix_refl _) cs hp.2⟩

theorem replaceAux_of_not_contains (old new : List Char) : ∀ (s : List Char),
    containsChars old s = false → replaceAux old new 0 s = s := by
  intro s
  induction s with
  | nil => intro _; rfl
  | cons c cs ih =>
    intro h
    rw [containsChars, Bool.or_eq_false_iff] at h
    rw [replaceAux_cons_ne old new c cs (by rw [h.1]; simp), ih h.2]

/-- C19 as stated fails: a row start that follows a row end and a blank stays in the
middle of its line, and the line holds two table rows. -/
theorem C19_row_start_counterexample :
    (Replace twoRowLine "</tr><tr>" "</tr>\n<tr>").data =
      "<tr>a</tr> ".data ++ "<tr>".data ++ "b</tr>".data ∧
    "<tr>a</tr> ".data ≠ [] ∧ "<tr>a</tr> ".data.getLast? ≠ some '\n' ∧
    scanLines (Replace twoRowLine "</tr><tr>" "</tr>\n<tr>") = ["<tr>a</tr> <tr>b</tr>"] := by
  refine ⟨by decide!, by decide!, by decide!, by decide!⟩

/-- C19 amended: the normalized text never has a row start directly after a row end,
it contains no `</tr><tr>`; a raw text without `</tr><tr>` is left as it is, so a
`<tr>` preceded by anything else stays where it was. -/
theorem C19_no_row_join (raw : String) :
    Contains (Replace raw "</tr><tr>" "</tr>\n<tr>") "</tr><tr>" = false ∧
    (Contains raw "</tr><tr>" = false → Replace raw "</tr><tr>" "</tr>\n<tr>" = raw) := by
  constructor
  · exact replace_no_rowJoin raw.data.length raw.data (Nat.le_refl _)
  · intro h
    unfold Replace
    rw [replaceAux_of_not_contains _ _ raw.data h]

/-- C19 amended, on the line with two rows apart by a blank and on two joined rows. -/
theorem C19_no_row_join_witness :
    Contains twoRowLine "</tr><tr>" = false ∧
    Replace twoRowLine "</tr><tr>" "</tr>\n<tr>" = twoRowLine ∧
    Replace "<tr>a</tr><tr>b</tr>" "</tr><tr>" "</tr>\n<tr>" = "<tr>a</tr>\n<tr>b</tr>" :=
  ⟨by decide!, (C19_no_row_join twoRowLine).2 (by decide!), by decide!⟩

/-! ## Claim on the order of the relations -/

theorem relationIds_cons (k : String) (r : Recipe) (rs : List Recipe) :
    relationIds k (r :: rs) =
      List.replicate (r.refs.filter (fun i => decide (Itoa i = k))).length r.Id ++
        relationIds k rs := by
  simp only [relationIds, List.flatMap_cons]
  congr 1
  exact List.eq_replicate_iff.2 ⟨by simp, by simp⟩

theorem refs_filter_length (k : String) (r : Recipe) :
    (r.refs.filter (fun i => decide (Itoa i = k))).length =
      (if Itoa r.Product.Item = k then 1 else 0) +
        (r.Ingredients.filter (fun g => decide (Itoa g.Item = k))).length := by
  have hm : ((r.Ingredients.map (fun g => g.Item)).filter (fun i => decide (Itoa i = k))).length =
      (r.Ingredients.filter (fun g => decide (Itoa g.Item = k))).length := by
    rw [List.filter_map, List.length_map]
    rfl
  unfold Recipe.refs
  rw [List.filter_cons]
  by_cases h : Itoa r.Product.Item = k
  · simp only [h, decide_True, if_true, List.length_cons, hm]
    omega
  · simp only [h, decide_False, if_false, hm, Bool.false_eq_true]
    omega

/-- The ids of `relations[k]` when the recipe at position `i` has the id `o + i + 1`. -/
theorem relationIds_of_positions (k : String) : ∀ (recipes : List Recipe) (o : Nat),
    (∀ (i : Nat) (h : i < recipes.length), recipes[i].Id = (o : Int) + i + 1) →
    (∀ x ∈ relationIds k recipes, (o : Int) < x ∧ ∃ r ∈ recipes, x = r.Id) ∧
    (relationIds k recipes).Pairwise (fun a b => a ≤ b) ∧
    (∀ r ∈ recipes, (relationIds k recipes).count r.Id =
      (r.refs.filter (fun i => decide (Itoa i = k))).length) := by
  intro recipes
  induction recipes with
  | nil =>
    intro o _
    simp [relationIds]
  | cons r rs ih =>
    intro o hid
    have hr : r.Id = (o : Int) + 1 := by
      have := hid 0 (by simp)
      simpa using this
    have hrs : ∀ (i : Nat) (h : i < rs.length), rs[i].Id = ((o + 1 : Nat) : Int) + i + 1 := by
      intro i h
      have := hid (i + 1) (by simp; omega)
      simp only [List.getElem_cons_succ] at this
      rw [this]
      push_cast
      omega
    obtain ⟨h1, h2, h3⟩ := ih (o + 1) hrs
    have hgt : ∀ x ∈ relationIds k rs, r.Id < x := by
      intro x hx
      have := (h1 x hx).1
      push_cast at this
      omega
    have hnot : r.Id ∉ relationIds k rs := fun hx => lt_irrefl _ (hgt _ hx)
    rw [relationIds_cons]
    refine ⟨?_, ?_, ?_⟩
    · intro x hx
      rcases List.mem_append.1 hx with hx | hx
      · have := (List.mem_replicate.1 hx).2
        exact ⟨by omega, r, by simp, this⟩
      · obtain ⟨hlt, r1, hr1, he⟩ := h1 x hx
        refine ⟨?_, r1, List.mem_cons_of_mem _ hr1, he⟩
        push_cast at hlt
        omega
    · rw [List.pairwise_append]
      refine ⟨?_, h2, ?_⟩
      · rw [List.pairwise_replicate]
        exact Or.inr (le_refl _)
      · intro a ha b hb
        rw [(List.mem_replicate.1 ha).2]
        exact le_of_lt (hgt b hb)
    · intro r1 hr1
      rw [List.count_append]
      rcases List.mem_cons.1 hr1 with rfl | hr1
      · rw [List.count_replicate_self, List.count_eq_zero_of_not_mem hnot]
        rfl
      · have hne : r1.Id ≠ r.Id := by
          obtain ⟨j, hj, rfl⟩ := List.mem_iff_getElem.1 hr1
          rw [hrs j hj, hr]
          push_cast
          omega
        have hz : List.count r1.Id (List.replicate
            (r.refs.filter (fun i => decide (Itoa i = k))).length r.Id) = 0 :=
          List.count_eq_zero_of_not_mem (fun hx => hne (List.mem_replicate.1 hx).2)
        rw [h3 r1 hr1, hz, Nat.zero_add]

/-- C20: for a recipe list whose ids are assigned in position order and every key
`k`, the list `relations[k]` built by `main` is in non-decreasing order, holds the id
of each recipe once if its product has key `k` plus once for every ingredient entry
with key `k`, and holds no other id. -/
theorem C20_relations_sorted_with_multiplicity (items : GoMap Int Tdb.Item)
    (recipes : List Recipe) (k : String)
    (hid : ∀ (i : Nat) (h : i < recipes.length), recipes[i].Id = (i : Int) + 1) :
    ((mainIndex items recipes).relations.index k).Pairwise (fun a b => a ≤ b) ∧
    (∀ r ∈ recipes, ((mainIndex items recipes).relations.index k).count r.Id =
      (if Itoa r.Product.Item = k then 1 else 0) +
        (r.Ingredients.filter (fun g => decide (Itoa g.Item = k))).length) ∧
    (∀ x ∈ (mainIndex items recipes).relations.index k, ∃ r ∈ recipes, x = r.Id) := by
  have hid0 : ∀ (i : Nat) (h : i < recipes.length),
      recipes[i].Id = ((0 : Nat) : Int) + i + 1 := by
    intro i h
    rw [hid i h]
    simp
  obtain ⟨h1, h2, h3⟩ := relationIds_of_positions k recipes 0 hid0
  rw [relations_mainIndex]
  refine ⟨h2, ?_, fun x hx => (h1 x hx).2⟩
  intro r hr
  rw [h3 r hr, refs_filter_length]

/-- C20 on two recipes, the second referencing Wood three times:
`relations["1"] = [1, 2, 2, 2]`. -/
theorem C20_relations_sorted_with_multiplicity_witness :
    (∀ (i : Nat) (h : i < repeatRecipes.length), repeatRecipes[i].Id = (i : Int) + 1) ∧
    (mainIndex exampleCatalog repeatRecipes).relations.index "1" = [1, 2, 2, 2] ∧
    ((mainIndex exampleCatalog repeatRecipes).relations.index "1").Pairwise
      (fun a b => a ≤ b) :=
  have hid : ∀ (i : Nat) (h : i < repeatRecipes.length),
      repeatRecipes[i].Id = (i : Int) + 1 := by
    intro i h
    have h2 : i < 2 := h
    interval_cases i <;> rfl
  ⟨hid, by decide!,
    (C20_relations_sorted_with_multiplicity exampleCatalog repeatRecipes "1" hid).1⟩

end Tdb
